import Mathlib

/-!
Verification development for the Hydra client-side dependency-injection
container (TypeScript).  The definitions below are a shallow embedding of
the container source:

* DOM model and data-attribute discovery  (DataAttributes.ts: discoverMediators,
  findMediator, assertElementType, assertElementTypes,
  validateElementsAgainstSchema, element schemas)
* selector queries                        (View.ts: getFirstElementBySelector,
  getAllElementsBySelector)
* the container itself                    (Hydra.ts: registerServiceInstance,
  registerComponentInstance, getServiceInstance, constructService,
  constructMediator, constructPageController, getMediatorInstance,
  resolveDependencies, pageElements, boot)

JavaScript objects used as string-keyed maps are modelled as association
lists in insertion order (Object.entries and Object.values iterate string
keys in insertion order); object reference identity is modelled by a
numeric allocation id threaded through the container state; `new C(...)`
is modelled by recording the constructor name and its argument list in a
call log and allocating a fresh id.
-/

/-! ## Association lists (JavaScript object maps, insertion-ordered) -/

def lookupA {α : Type} : List (String × α) → String → Option α
  | [], _ => none
  | (k0, v0) :: rest, k => if k0 == k then some v0 else lookupA rest k

/-- JavaScript assignment `m[k] = v`: an existing key keeps its position and
gets the new value, a new key is appended at the end. -/
def setA {α : Type} : List (String × α) → String → α → List (String × α)
  | [], k, v => [(k, v)]
  | (k0, v0) :: rest, k, v =>
    if k0 == k then (k0, v) :: rest else (k0, v0) :: setA rest k v

/-! ## DOM model

A DOM node carries a runtime constructor name, the list of type names it is
an `instanceof` (its prototype chain), its attributes, and the set of CSS
selectors it matches (CSS matching itself is external to the repository, so
it is modelled as an oracle attached to each node).  `nid` is node identity.
-/

structure Nd where
  nid : Nat
  ctorName : String
  types : List String
  attrs : List (String × String)
  sels : List String
deriving DecidableEq, Repr

inductive Dom where
  | node (data : Nd) (children : List Dom)

def Dom.nd : Dom → Nd
  | .node d _ => d

def Dom.kids : Dom → List Dom
  | .node _ cs => cs

mutual
/-- The tree and all of its subtrees, in pre-order (document order). -/
def subtreesT : Dom → List Dom
  | .node d cs => .node d cs :: subtreesF cs
def subtreesF : List Dom → List Dom
  | [] => []
  | t :: ts => subtreesT t ++ subtreesF ts
end

/-- A document is a forest of element trees. -/
def Document' := List Dom

def getAttr (n : Nd) (a : String) : Option String :=
  (n.attrs.find? (fun p => p.1 == a)).map (fun p => p.2)

def hasAttr (n : Nd) (a : String) : Bool :=
  (getAttr n a).isSome

def isHTMLElement (n : Nd) : Bool :=
  n.types.contains ("HTMLElement")

/-- `document.querySelectorAll(sel)`: all matching nodes in document order. -/
def querySelectorAllDoc (doc : List Dom) (sel : String) : List Nd :=
  ((subtreesF doc).map Dom.nd).filter (fun n => n.sels.contains sel)

/-- `rootElement.querySelectorAll(sel)` searches strict descendants only;
here specialised to attribute-presence selectors `[attr]` as used by
discoverMediators. -/
def descendantsWithAttr (t : Dom) (a : String) : List Nd :=
  ((subtreesF t.kids).map Dom.nd).filter (fun n => hasAttr n a)

/-! ## Data-attribute discovery (DataAttributes.ts) -/

/-- HYDRA_DATA_ATTRIBUTES.MEDIATOR -/
def MEDIATOR_ATTR : String := "data-hydra-mediator"
/-- HYDRA_DATA_ATTRIBUTES.ELEMENT -/
def ELEMENT_ATTR : String := "data-hydra-element"
/-- HYDRA_DATA_ATTRIBUTES.QUALIFIER -/
def QUALIFIER_ATTR : String := "data-hydra-qualifier"

/-- A resolved element-map entry: a single HTMLElement or an array of them. -/
inductive ElemRes where
  | single (e : Nd)
  | coll (es : List Nd)
deriving DecidableEq, Repr

structure DiscoveredMediator where
  name : String
  qualifier : Option String
  rootElement : Nd
  elements : List (String × ElemRes)
deriving DecidableEq, Repr

/-- One step of the element-collection loop in discoverMediators: a first
occurrence of a property name is stored as the element itself, a second
occurrence upgrades it to a two-element array, later occurrences push. -/
def addElement (m : List (String × ElemRes)) (p : String) (e : Nd) :
    List (String × ElemRes) :=
  match lookupA m p with
  | some (.single e0) => setA m p (.coll [e0, e])
  | some (.coll es) => setA m p (.coll (es ++ [e]))
  | none => m ++ [(p, .single e)]

/-- The loop body of discoverMediators over one element node: skip
non-HTMLElement nodes and falsy property names, otherwise add the node
under its property name. -/
def collectStep (m : List (String × ElemRes)) (e : Nd) :
    List (String × ElemRes) :=
  if isHTMLElement e then
    match getAttr e ELEMENT_ATTR with
    | some p => if p == "" then m else addElement m p e
    | none => m
  else m

def collectElements (ns : List Nd) : List (String × ElemRes) :=
  ns.foldl collectStep []

/-- The element map of one mediator root: the collected marked descendants,
plus the root itself when it carries a non-empty element attribute whose
property is not yet present. -/
def rootElements (t : Dom) : List (String × ElemRes) :=
  match getAttr t.nd ELEMENT_ATTR with
  | some rp =>
    if rp == "" then collectElements (descendantsWithAttr t ELEMENT_ATTR)
    else if (lookupA (collectElements (descendantsWithAttr t ELEMENT_ATTR))
        rp).isSome then
      collectElements (descendantsWithAttr t ELEMENT_ATTR)
    else collectElements (descendantsWithAttr t ELEMENT_ATTR) ++
      [(rp, .single t.nd)]
  | none => collectElements (descendantsWithAttr t ELEMENT_ATTR)

/-- The per-root body of discoverMediators: skip non-HTMLElement roots and
roots whose mediator-attribute value is falsy, read the optional qualifier,
and collect the element map. -/
def discoverFromRoot (t : Dom) : Option DiscoveredMediator :=
  if isHTMLElement t.nd then
    match getAttr t.nd MEDIATOR_ATTR with
    | none => none
    | some name =>
      if name == "" then none
      else some ⟨name, getAttr t.nd QUALIFIER_ATTR, t.nd, rootElements t⟩
  else none

/-- discoverMediators(document): query every node carrying the mediator
attribute, in document order, and build one DiscoveredMediator per valid
root. -/
def discoverMediators (doc : List Dom) : List DiscoveredMediator :=
  (((subtreesF doc).filter (fun t => hasAttr t.nd MEDIATOR_ATTR)).filterMap
    discoverFromRoot)

/-- findMediator: first discovered entry whose name matches and, when a
qualifier is requested, whose qualifier matches. -/
def findMediator (discovered : List DiscoveredMediator) (mediatorName : String)
    (qualifier : Option String) : Option DiscoveredMediator :=
  discovered.find? (fun p =>
    p.name == mediatorName && (qualifier == none || p.qualifier == qualifier))

/-- Root-selection rule actually used for attribute discovery, for a unit
(type name, optional qualifier): the predicate a mediator-marked node must
satisfy to be selected. -/
def mediatorRootMatch (name : String) (q : Option String) (d : Nd) : Bool :=
  isHTMLElement d && (getAttr d MEDIATOR_ATTR == some name) &&
    (q == none || getAttr d QUALIFIER_ATTR == q)

mutual
/-- Modelled from the spec: the chain of ancestor-or-self nodes of a target
node, innermost first, as required by the sentence "locate the nearest
ancestor-or-self DOM node carrying the unit's marker attribute".  This
definition follows the spec's words and exists only to be compared with the
source-derived discovery above. -/
def ancestorOrSelfChainT : Dom → Nat → Option (List Nd)
  | .node d cs, tid =>
    if d.nid == tid then some [d]
    else (ancestorOrSelfChainF cs tid).map (fun p => p ++ [d])
def ancestorOrSelfChainF : List Dom → Nat → Option (List Nd)
  | [], _ => none
  | t :: ts, tid =>
    match ancestorOrSelfChainT t tid with
    | some p => some p
    | none => ancestorOrSelfChainF ts tid
end

/-- Modelled from the spec: the nearest ancestor-or-self node of `target`
carrying the unit's marker attribute (and matching qualifier when
requested). -/
def nearestMarkedAncestorOrSelf (doc : List Dom) (target : Nat)
    (name : String) (q : Option String) : Option Nd :=
  match doc with
  | [] => none
  | t :: ts =>
    match ancestorOrSelfChainT t target with
    | some chain => chain.find? (mediatorRootMatch name q)
    | none => nearestMarkedAncestorOrSelf ts target name q

/-! ## Element schemas (DataAttributes.ts) and selector queries (View.ts)

Schema entries: a bare HTMLElement constructor (attribute-discovered single
element), collection(T) (attribute-discovered collection), selector(css, T)
and selectorAll(css, T).  Expected element types are identified by their
type name; `instanceof T` on a node is membership of T in the node's
prototype chain list. -/

inductive SchemaEntry where
  | bare (type : String)
  | coll (type : String)
  | sel (selector : String) (type : String)
  | selAll (selector : String) (type : String)
deriving DecidableEq, Repr

structure ElementSchema where
  definition : List (String × SchemaEntry)
deriving DecidableEq, Repr

/-- isElementWithSelector: the entry carries a CSS selector. -/
def isElementWithSelector (entry : SchemaEntry) : Bool :=
  match entry with
  | .sel _ _ => true
  | .selAll _ _ => true
  | _ => false

/-- isElementCollection: the entry expects a collection. -/
def isElementCollection (entry : SchemaEntry) : Bool :=
  match entry with
  | .coll _ => true
  | .selAll _ _ => true
  | _ => false

/-- getEntryType: the expected HTMLElement subtype of a schema entry. -/
def getEntryType (entry : SchemaEntry) : String :=
  match entry with
  | .bare t => t
  | .coll t => t
  | .sel _ t => t
  | .selAll _ t => t

def selectorErrMsg (sel ty got : String) : String :=
  "Could not find an HTMLElement with selector " ++ sel ++ " of type " ++ ty ++
    " on document. Query returned " ++ got

/-- getFirstElementBySelector (View.ts): `querySelector` then `instanceof`
check; both a missing node (null) and a mistyped node throw. -/
def getFirstElementBySelector (doc : List Dom) (sel ty : String) :
    Except String Nd :=
  match (querySelectorAllDoc doc sel).head? with
  | some e =>
    if e.types.contains ty then .ok e else .error (selectorErrMsg sel ty e.ctorName)
  | none => .error (selectorErrMsg sel ty ("null"))

/-- getAllElementsBySelector (View.ts): all matches, each `instanceof`
checked; zero matches yield the empty array without error. -/
def getAllElementsBySelector (doc : List Dom) (sel ty : String) :
    Except String (List Nd) :=
  (querySelectorAllDoc doc sel).mapM (fun e =>
    if e.types.contains ty then .ok e
    else .error ("Could not find an HTMLElement with selector " ++ sel ++
      " of type " ++ ty))

def undefinedElementMsg (context : String) : String :=
  "Element \x22" ++ context ++ "\x22 is undefined. " ++
    "Make sure it has data-hydra-element attribute."

def arrayElementMsg (context : String) : String :=
  "Element \x22" ++ context ++ "\x22 is an array but expected single element. " ++
    "Use assertElementTypes for collections."

def wrongTypeMsg (context expected got : String) : String :=
  "Element \x22" ++ context ++ "\x22 has wrong type. " ++
    "Expected " ++ expected ++ ", got " ++ got ++ "."

def undefinedElementsMsg (context : String) : String :=
  "Elements \x22" ++ context ++ "\x22 is undefined. " ++
    "Make sure they have data-hydra-element attributes."

def wrongTypeInCollMsg (context expected got : String) : String :=
  "Element in \x22" ++ context ++ "\x22 collection has wrong type. " ++
    "Expected " ++ expected ++ ", got " ++ got ++ "."

/-- assertElementType: undefined, an array, or a mistyped node each throw a
descriptive error naming the context (owning unit dot property). -/
def assertElementType (element : Option ElemRes) (expectedType context : String) :
    Except String Nd :=
  match element with
  | none => .error (undefinedElementMsg context)
  | some (.coll _) => .error (arrayElementMsg context)
  | some (.single e) =>
    if e.types.contains expectedType then .ok e
    else .error (wrongTypeMsg context expectedType e.ctorName)

def checkAllTypes (array : List Nd) (expectedType context : String) :
    Except String Unit :=
  match array with
  | [] => .ok ()
  | e :: rest =>
    if e.types.contains expectedType then checkAllTypes rest expectedType context
    else .error (wrongTypeInCollMsg context expectedType e.ctorName)

/-- assertElementTypes: undefined throws; a single element is wrapped into a
one-element array; each member is `instanceof`-checked. -/
def assertElementTypes (elements : Option ElemRes) (expectedType context : String) :
    Except String (List Nd) :=
  match elements with
  | none => .error (undefinedElementsMsg context)
  | some r =>
    let array := match r with | .single e => [e] | .coll es => es
    match checkAllTypes array expectedType context with
    | .ok _ => .ok array
    | .error e => .error e

/-- Consulting the resolved map by property name: an absent key and a key
stored as undefined both surface as `none` (undefined). -/
def lookupResolved (resolved : List (String × Option ElemRes)) (p : String) :
    Option ElemRes :=
  match lookupA resolved p with
  | some v => v
  | none => none

/-- The per-entry loop of validateElementsAgainstSchema, over the schema
definition entries in order; the resolved map is consulted by property
name, an absent or undefined entry surfaces as `none`. -/
def validateEntries (resolved : List (String × Option ElemRes))
    (mediatorName : String) :
    List (String × SchemaEntry) → Except String (List (String × ElemRes))
  | [] => .ok []
  | (propertyName, schemaEntry) :: rest =>
    let element := lookupResolved resolved propertyName
    let elementType := getEntryType schemaEntry
    let checked : Except String ElemRes :=
      if isElementCollection schemaEntry then
        (assertElementTypes element elementType
          (mediatorName ++ "." ++ propertyName)).map ElemRes.coll
      else
        (assertElementType element elementType
          (mediatorName ++ "." ++ propertyName)).map ElemRes.single
    match checked with
    | .error e => .error e
    | .ok r =>
      match validateEntries resolved mediatorName rest with
      | .error e => .error e
      | .ok rs => .ok ((propertyName, r) :: rs)

/-- validateElementsAgainstSchema (DataAttributes.ts). -/
def validateElementsAgainstSchema (resolved : List (String × Option ElemRes))
    (schema : ElementSchema) (mediatorName : String) :
    Except String (List (String × ElemRes)) :=
  validateEntries resolved mediatorName schema.definition

def mediatorNotFoundMsg (mediatorName : String) (qualifier : Option String) :
    String :=
  "Could not find Mediator \x22" ++ mediatorName ++ "\x22" ++
    (match qualifier with
     | some q => if q == "" then "" else " with qualifier \x22" ++ q ++ "\x22"
     | none => "") ++
    " in the DOM. Make sure to add data-hydra-mediator=\x22" ++ mediatorName ++
    "\x22 to an element."

/-- discoverElementsFromDataAttributes (Hydra.ts): one discovery pass over
the document, then findMediator by (name, qualifier). -/
def discoverElementsFromDataAttributes (doc : List Dom)
    (mediatorName : Option String) (qualifier : Option String) :
    Except String (List (String × ElemRes)) :=
  match mediatorName with
  | none => .error ("Cannot discover elements via data attributes without a Mediator name")
  | some name =>
    match findMediator (discoverMediators doc) name qualifier with
    | none => .error (mediatorNotFoundMsg name qualifier)
    | some m => .ok m.elements

/-- First pass of resolveElementsFromSchema: selector-based entries are
resolved immediately, in schema order; other entries are left to the
data-attribute pass. -/
def resolveSelectorEntries (doc : List Dom) :
    List (String × SchemaEntry) → Except String (List (String × Option ElemRes))
  | [] => .ok []
  | (p, entry) :: rest =>
    match entry with
    | .sel s ty =>
      match getFirstElementBySelector doc s ty with
      | .error e => .error e
      | .ok e =>
        match resolveSelectorEntries doc rest with
        | .error e2 => .error e2
        | .ok r => .ok ((p, some (.single e)) :: r)
    | .selAll s ty =>
      match getAllElementsBySelector doc s ty with
      | .error e => .error e
      | .ok es =>
        match resolveSelectorEntries doc rest with
        | .error e2 => .error e2
        | .ok r => .ok ((p, some (.coll es)) :: r)
    | _ => resolveSelectorEntries doc rest

def needsDataAttributeDiscovery (defs : List (String × SchemaEntry)) : Bool :=
  defs.any (fun pe => !(isElementWithSelector pe.2))

/-- resolveElementsFromSchema (Hydra.ts): selector entries first, then, if
any entry is attribute-based, exactly one data-attribute discovery pass; an
attribute entry whose property name was not discovered maps to `none`
(undefined). -/
def resolveElementsFromSchema (doc : List Dom) (schema : ElementSchema)
    (mediatorName : Option String) (qualifier : Option String) :
    Except String (List (String × Option ElemRes)) :=
  match resolveSelectorEntries doc schema.definition with
  | .error e => .error e
  | .ok firstPass =>
    if needsDataAttributeDiscovery schema.definition then
      match discoverElementsFromDataAttributes doc mediatorName qualifier with
      | .error e => .error e
      | .ok discovered =>
        .ok (firstPass ++ (schema.definition.filterMap (fun pe =>
          if isElementWithSelector pe.2 then none
          else some (pe.1, lookupA discovered pe.1))))
    else .ok firstPass

/-! ## Container state (Hydra.ts)

An Instance models one constructed object: the constructor name it was
built from and a fresh allocation id standing for reference identity. -/

structure Inst where
  typeName : String
  id : Nat
deriving DecidableEq, Repr

/-- MediatorOptions: the options object passed at a mediator() site; only
the qualifier field participates in the algorithms. -/
structure MediatorOptions where
  qualifier : String
deriving DecidableEq, Repr

/-- A runtime value that can appear in a constructor-argument list: the
JavaScript undefined, an opaque literal, an object instance, the mediator
options object, or a resolved element mapping. -/
inductive Value where
  | undef
  | raw (s : String)
  | instV (i : Inst)
  | optsV (o : MediatorOptions)
  | elemsV (m : List (String × ElemRes))
deriving DecidableEq, Repr

/-- The trailing argument of `new mediatorConstructor(...deps, options)`:
the options object, or undefined when the mediator was resolved without
options. -/
def optionsValue : Option MediatorOptions → Value
  | none => .undef
  | some o => .optsV o

/-- The Selector type of Hydra.ts: a string or a function of the options. -/
inductive PSelector where
  | str (s : String)
  | fn (f : Option MediatorOptions → String)

/-- HTMLElementDescriptor and HTMLElementCollectionDescriptor, merged on
their collection flag as the source records are. -/
structure HTMLElementDescriptor where
  selector : PSelector
  type : String
  collection : Bool

/-- The selector of a descriptor, computed from the options when it is a
function (getHTMLElement and getHTMLElements in Hydra.ts). -/
def resolvePSelector (s : PSelector) (options : Option MediatorOptions) : String :=
  match s with
  | .str s0 => s0
  | .fn f => f options

/-- MediatorDefinitionParameter and PageControllerDefinitionParameter: the
tagged dependency declarations.  The source distinguishes them by runtime
shape probes run in this order: serviceType field, mediatorType field,
__elementSchema field, every-property-is-a-descriptor, value field; the
variants below match those probes variant-by-variant.  (Shape punning such
as an element container owning a property literally named serviceType, or
a literal whose payload is itself descriptor-shaped, is not modelled; no
claim exercises it.)  A Literal whose carried value is undefined fails the
probe `definition.value !== undefined` and therefore matches no variant in
the source; this is kept faithfully in resolveDependencies below. -/
inductive DepParam where
  | serviceDep (serviceType : String)
  | mediatorDep (mediatorType : String) (options : Option MediatorOptions)
  | elementSchemaDep (schema : ElementSchema)
  | pageElementContainerDep (pec : List (String × HTMLElementDescriptor))
  | valueDep (v : Value)

/-- ServiceDefinitionParameter: service reference or literal value. -/
inductive SParam where
  | serviceDep (serviceType : String)
  | valueDep (v : Value)
deriving DecidableEq, Repr

/-- The container state: the three definition stores, the four instance
registries, the allocation counter, and the log of constructor invocations
(constructor name and positional argument list), which models the
observable `new C(...args)` calls. -/
structure Hst where
  serviceDefinitions : List (String × List SParam)
  mediatorDefinitions : List (String × List DepParam)
  pageControllerDefinitions : List (String × List DepParam)
  services : List (String × Inst)
  mediators : List (String × Inst)
  pageControllers : List (String × Inst)
  components : List (String × Inst)
  nextId : Nat
  ctorCalls : List (String × List Value)

/-- getKey (Hydra.ts): the registry key for (type name, optional name). -/
def getKey (typeName : String) (name : Option String) : String :=
  match name with
  | some n => n ++ "_" ++ typeName
  | none => typeName

/-- registerServiceInstance: stores the instance only when no instance is
registered under the key yet; an occupied key silently keeps the old
instance. -/
def registerServiceInstance (st : Hst) (inst : Inst) (name : Option String) :
    Hst :=
  let servName := getKey inst.typeName name
  if (lookupA st.services servName).isSome then st
  else { st with services := setA st.services servName inst }

/-- registerComponentInstance: unconditionally stores the instance under
the key, replacing any previous one. -/
def registerComponentInstance (st : Hst) (inst : Inst) (name : Option String) :
    Hst :=
  { st with components := setA st.components (getKey inst.typeName name) inst }

def serviceNotFoundMsg (serviceType : String) (name : Option String) : String :=
  "Could not find service of type " ++ serviceType ++
    (match name with | some n => " qualified by " ++ n | none => "") ++
    ". Make sure to register it first."

/-- getServiceInstance: a registry lookup with an `instanceof` check; it
never constructs anything.  Instances constructed by this container always
have their exact constructor as type, so `instanceof` is modelled as type
name equality. -/
def getServiceInstance (st : Hst) (serviceType : String) (name : Option String) :
    Except String Inst :=
  let servName := getKey serviceType name
  match lookupA st.services servName with
  | some serv =>
    if serv.typeName == serviceType then .ok serv
    else .error (serviceNotFoundMsg serviceType name)
  | none => .error (serviceNotFoundMsg serviceType name)

/-- The mediator registry key: typeName, suffixed by underscore-qualifier
when the options carry a truthy (non-empty) qualifier. -/
def mediatorKey (name : String) (options : Option MediatorOptions) : String :=
  name ++ (match options with
           | some o => if o.qualifier == "" then "" else "_" ++ o.qualifier
           | none => "")

/-- constructService: memoized on the services registry; dependencies are
mapped in declaration order, a ServiceRef via getServiceInstance (lookup
only) and anything else via its value field; then `new ctor(...deps)` is
invoked and the instance stored. -/
def constructService (st : Hst) (name : String) (params : List SParam) :
    (Except String Inst) × Hst :=
  match lookupA st.services name with
  | some inst => (.ok inst, st)
  | none =>
    match params.mapM (fun p =>
      match p with
      | .serviceDep sty => (getServiceInstance st sty none).map Value.instV
      | .valueDep v => .ok v) with
    | .error e => (.error e, st)
    | .ok deps =>
      let constructed : Inst := ⟨name, st.nextId⟩
      (.ok constructed,
        { st with
          nextId := st.nextId + 1,
          ctorCalls := st.ctorCalls ++ [(name, deps)],
          services := setA st.services name constructed })

/-- pageElements (Hydra.ts): resolve a raw element container by direct
selector lookups, single or collection per descriptor. -/
def pageElements (pec : List (String × HTMLElementDescriptor)) (doc : List Dom)
    (options : Option MediatorOptions) :
    Except String (List (String × ElemRes)) :=
  match pec with
  | [] => .ok []
  | (propertyName, desc) :: rest =>
    let sel := resolvePSelector desc.selector options
    match (if desc.collection then
             (getAllElementsBySelector doc sel desc.type).map ElemRes.coll
           else
             (getFirstElementBySelector doc sel desc.type).map ElemRes.single) with
    | .error e => .error e
    | .ok r =>
      match pageElements rest doc options with
      | .error e => .error e
      | .ok rs => .ok ((propertyName, r) :: rs)

def outOfFuelMsg : String := "construction did not terminate"

mutual

/-- constructMediator: memoized per (type, qualifier) key; on a miss,
resolve the declared dependencies, then invoke
`new mediatorConstructor(...dependencies, options)` and store the instance
under the key.  The fuel argument bounds the recursion depth of the
dependency graph walk (the source has no cycle protection; enough fuel is
always available for cycle-free registrations). -/
def constructMediator (doc : List Dom) (fuel : Nat) (st : Hst) (name : String)
    (params : List DepParam) (options : Option MediatorOptions) :
    (Except String Inst) × Hst :=
  match fuel with
  | 0 => (.error outOfFuelMsg, st)
  | fuel' + 1 =>
    let mediatorName := mediatorKey name options
    match lookupA st.mediators mediatorName with
    | some inst => (.ok inst, st)
    | none =>
      match resolveDependencies doc fuel' st params options (some name) with
      | (.error e, st1) => (.error e, st1)
      | (.ok deps, st1) =>
        let constructed : Inst := ⟨name, st1.nextId⟩
        (.ok constructed,
          { st1 with
            nextId := st1.nextId + 1,
            ctorCalls := st1.ctorCalls ++
              [(name, deps ++ [optionsValue options])],
            mediators := setA st1.mediators mediatorName constructed })

/-- getMediatorInstance: look the mediator definition up and construct via
constructMediator with the options of the MediatorRef site. -/
def getMediatorInstance (doc : List Dom) (fuel : Nat) (st : Hst)
    (mediatorType : String) (options : Option MediatorOptions) :
    (Except String Inst) × Hst :=
  match fuel with
  | 0 => (.error outOfFuelMsg, st)
  | fuel' + 1 =>
    match lookupA st.mediatorDefinitions mediatorType with
    | none =>
      (.error ("Could not find definition for " ++ mediatorType ++
        ". Make sure to register it with registerMediator."), st)
    | some params => constructMediator doc fuel' st mediatorType params options

/-- resolveDependencies: walk the declarations in order and push one
resolved argument per recognised declaration.  The declaration kinds are
probed in the source order; a Literal carrying undefined matches no probe
and contributes nothing.  (The source also declares an elementDependencies
object that is never written to, so its final unshift never fires; it is
omitted.) -/
def resolveDependencies (doc : List Dom) (fuel : Nat) (st : Hst)
    (params : List DepParam) (options : Option MediatorOptions)
    (mediatorName : Option String) :
    (Except String (List Value)) × Hst :=
  match fuel with
  | 0 => (.error outOfFuelMsg, st)
  | fuel' + 1 =>
    match params with
    | [] => (.ok [], st)
    | p :: rest =>
      match p with
      | .serviceDep sty =>
        match getServiceInstance st sty none with
        | .error e => (.error e, st)
        | .ok inst =>
          match resolveDependencies doc fuel' st rest options mediatorName with
          | (.error e, st1) => (.error e, st1)
          | (.ok vs, st1) => (.ok (.instV inst :: vs), st1)
      | .mediatorDep mty mopts =>
        match getMediatorInstance doc fuel' st mty mopts with
        | (.error e, st1) => (.error e, st1)
        | (.ok inst, st1) =>
          match resolveDependencies doc fuel' st1 rest options mediatorName with
          | (.error e, st2) => (.error e, st2)
          | (.ok vs, st2) => (.ok (.instV inst :: vs), st2)
      | .elementSchemaDep schema =>
        match resolveElementsFromSchema doc schema mediatorName
            (options.map (fun o => o.qualifier)) with
        | .error e => (.error e, st)
        | .ok resolved =>
          match validateElementsAgainstSchema resolved schema
              ((mediatorName).getD ("Unknown")) with
          | .error e => (.error e, st)
          | .ok validated =>
            match resolveDependencies doc fuel' st rest options mediatorName with
            | (.error e, st1) => (.error e, st1)
            | (.ok vs, st1) => (.ok (.elemsV validated :: vs), st1)
      | .pageElementContainerDep pec =>
        match pageElements pec doc options with
        | .error e => (.error e, st)
        | .ok m =>
          match resolveDependencies doc fuel' st rest options mediatorName with
          | (.error e, st1) => (.error e, st1)
          | (.ok vs, st1) => (.ok (.elemsV m :: vs), st1)
      | .valueDep v =>
        if v == .undef then
          resolveDependencies doc fuel' st rest options mediatorName
        else
          match resolveDependencies doc fuel' st rest options mediatorName with
          | (.error e, st1) => (.error e, st1)
          | (.ok vs, st1) => (.ok (v :: vs), st1)

end

/-- constructPageController: memoized on the pageControllers registry; the
dependencies are resolved without options and without a mediator name, then
`new constructor(...dependencies)` is invoked. -/
def constructPageController (doc : List Dom) (fuel : Nat) (st : Hst)
    (name : String) (params : List DepParam) : (Except String Inst) × Hst :=
  match lookupA st.pageControllers name with
  | some inst => (.ok inst, st)
  | none =>
    match resolveDependencies doc fuel st params none none with
    | (.error e, st1) => (.error e, st1)
    | (.ok deps, st1) =>
      let constructed : Inst := ⟨name, st1.nextId⟩
      (.ok constructed,
        { st1 with
          nextId := st1.nextId + 1,
          ctorCalls := st1.ctorCalls ++ [(name, deps)],
          pageControllers := setA st1.pageControllers name constructed })

/-- The service-construction loop of boot: walk the service definitions in
registration order; an exception thrown by any construction aborts the walk
(the forEach callback rethrows), leaving every instance constructed so far
in the registry. -/
def constructAllServices : Hst → List (String × List SParam) →
    (Except String Unit) × Hst
  | st, [] => (.ok (), st)
  | st, (serviceName, params) :: rest =>
    match constructService st serviceName params with
    | (.error e, st1) => (.error e, st1)
    | (.ok inst, st1) =>
      constructAllServices
        { st1 with services := setA st1.services serviceName inst } rest

/-- The page-controller-construction loop of boot. -/
def constructAllPageControllers (doc : List Dom) (fuel : Nat) :
    Hst → List (String × List DepParam) → (Except String Unit) × Hst
  | st, [] => (.ok (), st)
  | st, (name, params) :: rest =>
    match constructPageController doc fuel st name params with
    | (.error e, st1) => (.error e, st1)
    | (.ok inst, st1) =>
      constructAllPageControllers doc fuel
        { st1 with pageControllers := setA st1.pageControllers name inst } rest

/-- boot (Hydra.ts): the whole sequence runs inside one try/catch whose
catch only logs; the returned pair is (container state when boot returns,
logged error if any).  After construction, the lifecycle hooks run in three
awaited Promise.all waves (services with a load function, then mediators,
then page controllers); the hooks only read already-published instances, so
their effect is abstracted into the two oracles: hasLoad (does the service
expose a load function) and loadOk (does this instance's load settle
fulfilled).  An all-fulfilled wave lets the next wave start; any rejection
makes the corresponding await throw into the catch, so the definition
stores are only cleared when every wave fulfilled. -/
def boot (doc : List Dom) (fuel : Nat) (hasLoad loadOk : Inst → Bool)
    (st : Hst) : Hst × Option String :=
  match constructAllServices st st.serviceDefinitions with
  | (.error e, st1) => (st1, some e)
  | (.ok _, st1) =>
    match constructAllPageControllers doc fuel st1
        st1.pageControllerDefinitions with
    | (.error e, st2) => (st2, some e)
    | (.ok _, st2) =>
      if st2.services.all (fun p => !hasLoad p.2 || loadOk p.2) then
        if st2.mediators.all (fun p => loadOk p.2) then
          if st2.pageControllers.all (fun p => loadOk p.2) then
            ({ st2 with
                serviceDefinitions := [],
                pageControllerDefinitions := [],
                mediatorDefinitions := [] }, none)
          else (st2, some ("Error during load time"))
        else (st2, some ("Error during load time"))
      else (st2, some ("Error during load time"))

/-! ## Timed model of the three lifecycle waves

boot awaits three Promise.all batches in sequence.  Each hook is modelled
by the time at which it settles and whether it fulfils; Promise.all of a
wave fulfils exactly when every member fulfils, no earlier than the latest
settle time, and a rejection makes the corresponding await throw, so no
later wave ever starts. -/

structure Hook where
  settle : Nat
  ok : Bool
deriving DecidableEq, Repr

/-- The time at which `await Promise.all(wave)` started at time t0 resumes
normally, or none when some hook rejects (the await then throws). -/
def waveFulfillTime (t0 : Nat) (w : List Hook) : Option Nat :=
  if w.all (fun h => h.ok) then
    some (w.foldl (fun a h => max a h.settle) t0)
  else none

/-- Start time of wave n (0-indexed) of a wave sequence started at time 0;
none when an earlier wave rejected or does not exist. -/
def startOfWave (ws : List (List Hook)) : Nat → Option Nat
  | 0 => some 0
  | n + 1 =>
    match startOfWave ws n, ws[n]? with
    | some t, some w => waveFulfillTime t w
    | _, _ => none

/-- The wave sequence of boot: all Services, then all Mediators, then all
Page Controllers. -/
def bootLifecycleWaves (serviceHooks mediatorHooks pageControllerHooks :
    List Hook) : List (List Hook) :=
  [serviceHooks, mediatorHooks, pageControllerHooks]

/-! ## Spec-side resolver for the refinement comparison of claim C2

resolveDependenciesSpec follows the spec's words for the Literal case:
"Literal, append the carried value unchanged" with no undefined proviso.
All other cases are word-for-word the resolver above. -/

def resolveDependenciesSpec (doc : List Dom) (fuel : Nat) (st : Hst)
    (params : List DepParam) (options : Option MediatorOptions)
    (mediatorName : Option String) :
    (Except String (List Value)) × Hst :=
  match fuel with
  | 0 => (.error outOfFuelMsg, st)
  | fuel' + 1 =>
    match params with
    | [] => (.ok [], st)
    | p :: rest =>
      match p with
      | .serviceDep sty =>
        match getServiceInstance st sty none with
        | .error e => (.error e, st)
        | .ok inst =>
          match resolveDependenciesSpec doc fuel' st rest options mediatorName with
          | (.error e, st1) => (.error e, st1)
          | (.ok vs, st1) => (.ok (.instV inst :: vs), st1)
      | .mediatorDep mty mopts =>
        match getMediatorInstance doc fuel' st mty mopts with
        | (.error e, st1) => (.error e, st1)
        | (.ok inst, st1) =>
          match resolveDependenciesSpec doc fuel' st1 rest options mediatorName with
          | (.error e, st2) => (.error e, st2)
          | (.ok vs, st2) => (.ok (.instV inst :: vs), st2)
      | .elementSchemaDep schema =>
        match resolveElementsFromSchema doc schema mediatorName
            (options.map (fun o => o.qualifier)) with
        | .error e => (.error e, st)
        | .ok resolved =>
          match validateElementsAgainstSchema resolved schema
              ((mediatorName).getD ("Unknown")) with
          | .error e => (.error e, st)
          | .ok validated =>
            match resolveDependenciesSpec doc fuel' st rest options mediatorName with
            | (.error e, st1) => (.error e, st1)
            | (.ok vs, st1) => (.ok (.elemsV validated :: vs), st1)
      | .pageElementContainerDep pec =>
        match pageElements pec doc options with
        | .error e => (.error e, st)
        | .ok m =>
          match resolveDependenciesSpec doc fuel' st rest options mediatorName with
          | (.error e, st1) => (.error e, st1)
          | (.ok vs, st1) => (.ok (.elemsV m :: vs), st1)
      | .valueDep v =>
        match resolveDependenciesSpec doc fuel' st rest options mediatorName with
        | (.error e, st1) => (.error e, st1)
        | (.ok vs, st1) => (.ok (v :: vs), st1)

/-- No declaration is a Literal carrying undefined. -/
def noUndefLiteral (params : List DepParam) : Bool :=
  params.all (fun p =>
    match p with
    | .valueDep .undef => false
    | _ => true)

/-! ## Concrete fixtures used by witnesses and counterexamples -/

def emptyHst : Hst :=
  ⟨[], [], [], [], [], [], [], 0, []⟩

/-- Registration order: A (depending on service S) first, then S. -/
def defsAfirst : List (String × List SParam) :=
  [("A", [SParam.serviceDep ("S")]), ("S", [])]

/-- Registration order: S first, then A depending on S. -/
def defsSfirst : List (String × List SParam) :=
  [("S", []), ("A", [SParam.serviceDep ("S")])]

/-- A document with two nested mediator roots named M: the outer root (node
0) contains the inner root (node 1), which contains the marked element
(node 2). -/
def leafNd : Nd :=
  ⟨2, "HTMLDivElement", ["HTMLElement", "HTMLDivElement"],
    [("data-hydra-element", "x")], []⟩

def innerNd : Nd :=
  ⟨1, "HTMLDivElement", ["HTMLElement", "HTMLDivElement"],
    [("data-hydra-mediator", "M")], []⟩

def outerNd : Nd :=
  ⟨0, "HTMLDivElement", ["HTMLElement", "HTMLDivElement"],
    [("data-hydra-mediator", "M")], []⟩

def nestedDoc : List Dom :=
  [.node outerNd [.node innerNd [.node leafNd []]]]

/-- A schema with one selector-collection entry. -/
def schemaItemsOnly : ElementSchema :=
  ⟨[("items", SchemaEntry.selAll ("sel-x") ("HTMLLIElement"))]⟩

/-- A mediator root with one title element and two item elements. -/
def titleNd : Nd :=
  ⟨11, "HTMLHeadingElement", ["HTMLElement", "HTMLHeadingElement"],
    [("data-hydra-element", "title")], []⟩

def itemNdA : Nd :=
  ⟨12, "HTMLLIElement", ["HTMLElement", "HTMLLIElement"],
    [("data-hydra-element", "items")], []⟩

def itemNdB : Nd :=
  ⟨13, "HTMLLIElement", ["HTMLElement", "HTMLLIElement"],
    [("data-hydra-element", "items")], []⟩

def listRootNd : Nd :=
  ⟨10, "HTMLDivElement", ["HTMLElement", "HTMLDivElement"],
    [("data-hydra-mediator", "ListPart")], []⟩

def listTree : Dom :=
  .node listRootNd [.node titleNd [], .node itemNdA [], .node itemNdB []]

/-- The discovery result for listTree. -/
def listDm : DiscoveredMediator :=
  ⟨"ListPart", none, listRootNd,
    [("title", .single titleNd), ("items", .coll [itemNdA, itemNdB])]⟩

/-- A state holding one registered service instance under key S. -/
def stWithS : Hst :=
  ⟨[], [], [], [("S", ⟨"S", 7⟩)], [], [], [], 8, []⟩

/-- Three concrete lifecycle hooks: a service hook settling at 1, a
mediator hook settling at 2, a page-controller hook settling at 5. -/
def hooksS : List Hook := [⟨1, true⟩]

def hooksM : List Hook := [⟨2, true⟩]

def hooksP : List Hook := [⟨5, true⟩]

/-- A schema with one attribute-discovered single entry. -/
def schemaTitleBare : ElementSchema :=
  ⟨[("title", SchemaEntry.bare ("HTMLHeadingElement"))]⟩

/-- A schema with one selector-based single entry. -/
def schemaHdrSel : ElementSchema :=
  ⟨[("hdr", SchemaEntry.sel ("h1") ("HTMLHeadingElement"))]⟩

/-- The descendants of a mediator root that contribute occurrences of
property name p during attribute discovery: HTMLElement descendants whose
element attribute value is p (in document order). -/
def elementOccurrences (t : Dom) (p : String) : List Nd :=
  (descendantsWithAttr t ELEMENT_ATTR).filter (fun e =>
    isHTMLElement e && (getAttr e ELEMENT_ATTR == some p))

/-- What the collection loop of discoverMediators produces for one property
name from its current entry and the remaining occurrences. -/
def combineOcc : Option ElemRes → List Nd → Option ElemRes
  | cur, [] => cur
  | none, e :: es => combineOcc (some (.single e)) es
  | some (.single e0), e :: es => combineOcc (some (.coll [e0, e])) es
  | some (.coll cs), e :: es => combineOcc (some (.coll (cs ++ [e]))) es

/-- Well-formedness of the mediator registry: every stored instance was
allocated below the current counter, and distinct keys hold distinct
objects. -/
def WfMediators (st : Hst) : Prop :=
  (∀ k v, lookupA st.mediators k = some v → v.id < st.nextId) ∧
  (∀ k1 k2 v1 v2, lookupA st.mediators k1 = some v1 →
    lookupA st.mediators k2 = some v2 → k1 ≠ k2 → v1.id ≠ v2.id)

/-- How one construction step may change the container state: the
definition stores, the service, page-controller and component registries
are untouched; the allocation counter only grows; mediator entries are
never removed or replaced (their lookups are preserved), every new mediator
entry was freshly allocated, and registry well-formedness is preserved. -/
structure Evolves (st st' : Hst) : Prop where
  sdefs : st'.serviceDefinitions = st.serviceDefinitions
  mdefs : st'.mediatorDefinitions = st.mediatorDefinitions
  pdefs : st'.pageControllerDefinitions = st.pageControllerDefinitions
  svcs : st'.services = st.services
  pcs : st'.pageControllers = st.pageControllers
  comps : st'.components = st.components
  nid : st.nextId ≤ st'.nextId
  medMono : ∀ k v, lookupA st.mediators k = some v →
    lookupA st'.mediators k = some v
  medNew : ∀ k v, lookupA st'.mediators k = some v →
    lookupA st.mediators k = some v ∨ (st.nextId ≤ v.id ∧ v.id < st'.nextId)
  wf : WfMediators st → WfMediators st'

/-- The pure element-resolution pipeline run for an element-schema
dependency of a unit named `name`: resolveElementsFromSchema followed by
validateElementsAgainstSchema. -/
def resolveAndValidate (doc : List Dom) (schema : ElementSchema)
    (name : String) (q : Option String) :
    Except String (List (String × ElemRes)) :=
  match resolveElementsFromSchema doc schema (some name) q with
  | .error e => .error e
  | .ok resolved => validateElementsAgainstSchema resolved schema name

def isMediatorDepParam : DepParam → Bool
  | .mediatorDep _ _ => true
  | _ => false

/-- The error message of a failed element validation names a context
string (owning unit dot property) through one of the five assert
templates. -/
def msgNamesContext (msg ctx : String) : Prop :=
  msg = undefinedElementMsg ctx ∨ msg = arrayElementMsg ctx ∨
  (∃ exp got, msg = wrongTypeMsg ctx exp got) ∨
  msg = undefinedElementsMsg ctx ∨
  (∃ exp got, msg = wrongTypeInCollMsg ctx exp got)

/-- Dependency declarations: a literal, then a service reference. -/
def paramsC2 : List DepParam :=
  [DepParam.valueDep (Value.raw ("cfg")), DepParam.serviceDep ("S")]

/-- A state with one pre-existing instance Z and the A-before-S service
definitions, for exercising boot. -/
def stBoot : Hst :=
  ⟨defsAfirst, [], [], [("Z", ⟨"Z", 5⟩)], [], [], [], 6, []⟩

/-- The container state after constructing mediator M with qualifier a from
the empty state. -/
def stMa : Hst :=
  ⟨[], [], [], [], [("M_a", ⟨"M", 0⟩)], [], [], 1, [("M", [Value.optsV ⟨"a"⟩])]⟩

/-- The container state after additionally constructing mediator M with
qualifier b. -/
def stMab : Hst :=
  ⟨[], [], [], [], [("M_a", ⟨"M", 0⟩), ("M_b", ⟨"M", 1⟩)], [], [], 2,
    [("M", [Value.optsV ⟨"a"⟩]), ("M", [Value.optsV ⟨"b"⟩])]⟩

/-- The container state after constructing service A against stWithS. -/
def stWithSA : Hst :=
  ⟨[], [], [], [("S", ⟨"S", 7⟩), ("A", ⟨"A", 8⟩)], [], [], [], 9,
    [("A", [Value.instV ⟨"S", 7⟩])]⟩

/-- Every service, mediator and page-controller instance registered in the
first state is registered unchanged in the second: nothing was removed or
replaced between the two registry snapshots. -/
def RegistryPres (st st' : Hst) : Prop :=
  (∀ k v, lookupA st.services k = some v → lookupA st'.services k = some v) ∧
  (∀ k v, lookupA st.mediators k = some v →
    lookupA st'.mediators k = some v) ∧
  (∀ k v, lookupA st.pageControllers k = some v →
    lookupA st'.pageControllers k = some v)

/-- The container states the service-construction loop of boot passes
through, in order: the state before each iteration, and the state in which
the walk stops (after the throwing construction — which keeps everything
registered so far — or after the last definition). -/
def constructAllServicesTrace : Hst → List (String × List SParam) → List Hst
  | st, [] => [st]
  | st, (serviceName, params) :: rest =>
    match constructService st serviceName params with
    | (.error _, st1) => [st, st1]
    | (.ok inst, st1) =>
      st :: constructAllServicesTrace
        { st1 with services := setA st1.services serviceName inst } rest

/-- The container states the page-controller-construction loop of boot
passes through, in order; the stop state of a throwing construction keeps
every mediator constructed while resolving its dependencies. -/
def constructAllPageControllersTrace (doc : List Dom) (fuel : Nat) :
    Hst → List (String × List DepParam) → List Hst
  | st, [] => [st]
  | st, (name, params) :: rest =>
    match constructPageController doc fuel st name params with
    | (.error _, st1) => [st, st1]
    | (.ok inst, st1) =>
      st :: constructAllPageControllersTrace doc fuel
        { st1 with pageControllers := setA st1.pageControllers name inst }
        rest

/-- Every intermediate container state of one boot run, in order: the
states of the service walk, then — when that walk returned — the states of
the page-controller walk (the lifecycle waves construct nothing).  The
first element is always the input state. -/
def bootTrace (doc : List Dom) (fuel : Nat) (st : Hst) : List Hst :=
  match constructAllServices st st.serviceDefinitions with
  | (.error _, _) => constructAllServicesTrace st st.serviceDefinitions
  | (.ok _, st1) =>
    constructAllServicesTrace st st.serviceDefinitions ++
      constructAllPageControllersTrace doc fuel st1
        st1.pageControllerDefinitions

/-- Service definitions where S succeeds and then B throws (its dependency
Missing was never registered), for exercising boot's failure path after one
successful construction. -/
def defsSB : List (String × List SParam) :=
  [("S", []), ("B", [SParam.serviceDep ("Missing")])]

/-- An empty-registry state carrying the S-then-failing-B definitions. -/
def stBootSB : Hst :=
  ⟨defsSB, [], [], [], [], [], [], 0, []⟩

/-- The intermediate state of boot on stBootSB after service S was
constructed, just before the failing construction of B. -/
def stAfterS : Hst :=
  ⟨defsSB, [], [], [("S", ⟨"S", 0⟩)], [], [], [], 1, [("S", [])]⟩

/-! ## Helper lemmas about association lists -/

theorem lookupA_setA_self {α : Type} (m : List (String × α)) (k : String)
    (v : α) : lookupA (setA m k v) k = some v := by
  induction m with
  | nil => simp [setA, lookupA]
  | cons hd tl ih =>
    obtain ⟨k0, v0⟩ := hd
    by_cases h : k0 = k
    · simp [setA, lookupA, h]
    · simp [setA, lookupA, h, ih]

theorem lookupA_setA_ne {α : Type} (m : List (String × α)) (k k' : String)
    (v : α) (h : k' ≠ k) : lookupA (setA m k v) k' = lookupA m k' := by
  have hne : ¬ k = k' := fun hh => h hh.symm
  induction m with
  | nil => simp [setA, lookupA, hne]
  | cons hd tl ih =>
    obtain ⟨k0, v0⟩ := hd
    by_cases h0 : k0 = k
    · subst h0
      simp [setA, lookupA, hne]
    · simp [setA, lookupA, h0, ih]

theorem lookupA_append {α : Type} (m1 m2 : List (String × α)) (k : String) :
    lookupA (m1 ++ m2) k =
      match lookupA m1 k with
      | some v => some v
      | none => lookupA m2 k := by
  induction m1 with
  | nil => simp [lookupA]
  | cons hd tl ih =>
    obtain ⟨k0, v0⟩ := hd
    by_cases h : k0 = k
    · simp [lookupA, h]
    · simp [lookupA, h, ih]

/-! ## Claim C10 -/

/-- C10: registerServiceInstance is not an overwrite — an occupied key
(type name, optionally prefixed by the given name) keeps the existing
instance and the new one is silently discarded — while
registerComponentInstance unconditionally replaces the stored instance for
its key. -/
theorem c10_register_instance_semantics (st : Hst) (inst : Inst)
    (name : Option String) :
    ((lookupA st.services (getKey inst.typeName name)).isSome = true →
      registerServiceInstance st inst name = st) ∧
    lookupA (registerComponentInstance st inst name).components
      (getKey inst.typeName name) = some inst := by
  constructor
  · intro h
    simp [registerServiceInstance, h]
  · simp [registerComponentInstance, lookupA_setA_self]

theorem c10_register_instance_semantics_witness :
    (lookupA stWithS.services (getKey ("S") none)).isSome = true ∧
    registerServiceInstance stWithS ⟨"S", 99⟩ none = stWithS ∧
    lookupA (registerComponentInstance stWithS ⟨"S", 99⟩ none).components
      (getKey ("S") none) = some ⟨"S", 99⟩ :=
  ⟨by decide,
   (c10_register_instance_semantics stWithS ⟨"S", 99⟩ none).1 (by decide),
   (c10_register_instance_semantics stWithS ⟨"S", 99⟩ none).2⟩

/-! ## Claim C9 -/

/-- C9 counterexample: for a mediator declared with the single dependency
Literal(undefined), the constructor receives exactly one argument (the
trailing options value, undefined here), so its argument count is 1 and not
declared-dependency-count + 1 = 2: the declaration was skipped, falsifying
"arity exceeds its declared dependency count by one". -/
theorem c9_counterexample :
    (constructMediator [] 5 emptyHst ("M") [DepParam.valueDep Value.undef]
        none).2.ctorCalls = [("M", [Value.undef])] ∧
    [Value.undef].length ≠ [DepParam.valueDep Value.undef].length + 1 := by
  constructor
  · rfl
  · decide

/-- C9 (amended): on a memo miss, the mediator constructor is invoked with
the resolved dependency list plus one extra trailing argument, the options
value of the MediatorRef site (undefined when no options were passed), so
its arity exceeds the resolved dependency count by one (which equals the
declared count whenever no declaration was skipped). -/
theorem c9_mediator_trailing_options (doc : List Dom) (fuel : Nat) (st : Hst)
    (name : String) (params : List DepParam) (options : Option MediatorOptions)
    (inst : Inst)
    (hmiss : lookupA st.mediators (mediatorKey name options) = none)
    (hok : (constructMediator doc (fuel + 1) st name params options).1 = .ok inst) :
    ∃ deps st1,
      resolveDependencies doc fuel st params options (some name) = (.ok deps, st1) ∧
      (constructMediator doc (fuel + 1) st name params options).2.ctorCalls =
        st1.ctorCalls ++ [(name, deps ++ [optionsValue options])] ∧
      (deps ++ [optionsValue options]).length = deps.length + 1 := by
  rcases hr : resolveDependencies doc fuel st params options (some name) with ⟨r, st1⟩
  cases r with
  | error e =>
    exfalso
    simp only [constructMediator, hmiss, hr] at hok
    exact absurd hok (by simp)
  | ok deps =>
    refine ⟨deps, st1, rfl, ?_, ?_⟩
    · simp only [constructMediator, hmiss, hr]
    · simp

theorem c9_mediator_trailing_options_witness :
    lookupA emptyHst.mediators (mediatorKey ("M") (some ⟨"a"⟩)) = none ∧
    (∃ deps st1,
      resolveDependencies [] 4 emptyHst [] (some ⟨"a"⟩) (some ("M")) = (.ok deps, st1) ∧
      (constructMediator [] 5 emptyHst ("M") [] (some ⟨"a"⟩)).2.ctorCalls =
        st1.ctorCalls ++ [("M", deps ++ [optionsValue (some ⟨"a"⟩)])] ∧
      (deps ++ [optionsValue (some ⟨"a"⟩)]).length = deps.length + 1) :=
  ⟨rfl,
   c9_mediator_trailing_options [] 4 emptyHst ("M") [] (some ⟨"a"⟩) ⟨"M", 0⟩
     rfl rfl⟩

/-! ## Claim C2: counterexample -/

/-- C2 counterexample: a Literal carrying undefined is skipped by the
resolver (it matches none of the runtime shape probes), so the constructor
argument list for the declaration list [Literal(undefined)] is empty rather
than [undefined]; the spec-side resolver that appends every literal
unchanged disagrees with the source resolver at this input. -/
theorem c2_counterexample :
    (resolveDependencies [] 3 emptyHst [DepParam.valueDep Value.undef]
        none none).1 = .ok [] ∧
    (resolveDependenciesSpec [] 3 emptyHst [DepParam.valueDep Value.undef]
        none none).1 = .ok [Value.undef] ∧
    ([] : List Value) ≠ [Value.undef] := by
  refine ⟨rfl, rfl, ?_⟩
  decide

/-! ## Claim C1: counterexample -/

/-- C1 counterexample: service A depends on service S; with registration
order [A, S], boot's service-construction walk fails with the
register-it-first error while constructing A (getServiceInstance only looks
the instance up, it never constructs S on demand even though S has a
registered definition), and neither A nor S gets an instance; with order
[S, A] the same registrations construct fine.  Construction therefore does
not succeed regardless of registration order. -/
theorem c1_counterexample :
    (constructAllServices { emptyHst with serviceDefinitions := defsAfirst }
        defsAfirst).1 = .error (serviceNotFoundMsg ("S") none) ∧
    lookupA (constructAllServices { emptyHst with serviceDefinitions := defsAfirst }
        defsAfirst).2.services ("A") = none ∧
    lookupA (constructAllServices { emptyHst with serviceDefinitions := defsAfirst }
        defsAfirst).2.services ("S") = none ∧
    lookupA { emptyHst with serviceDefinitions := defsAfirst }.serviceDefinitions ("S")
      = some [] ∧
    (constructAllServices { emptyHst with serviceDefinitions := defsSfirst }
        defsSfirst).1 = .ok () := by
  refine ⟨rfl, rfl, rfl, rfl, rfl⟩

/-! ## Claim C6: counterexample -/

/-- C6 counterexample: a selector-collection schema entry with zero
matching DOM nodes resolves to the empty collection and passes validation,
so an entry that resolves to no matching DOM node does not always fail: the
whole resolution pipeline succeeds on an empty document. -/
theorem c6_counterexample :
    querySelectorAllDoc [] ("sel-x") = [] ∧
    resolveElementsFromSchema [] schemaItemsOnly (some ("M")) none =
      .ok [("items", some (.coll []))] ∧
    validateElementsAgainstSchema [("items", some (.coll []))] schemaItemsOnly
      ("M") = .ok [("items", .coll [])] := by
  refine ⟨rfl, rfl, rfl⟩

/-! ## Claim C5: lifecycle waves -/

theorem foldl_max_init_le (w : List Hook) (t0 : Nat) :
    t0 ≤ w.foldl (fun a h => max a h.settle) t0 := by
  induction w generalizing t0 with
  | nil => simp
  | cons hd tl ih =>
    simp only [List.foldl]
    exact le_trans (le_max_left t0 hd.settle) (ih (max t0 hd.settle))

theorem mem_settle_le_foldl (w : List Hook) (t0 : Nat) (hk : Hook)
    (hm : hk ∈ w) :
    hk.settle ≤ w.foldl (fun a h => max a h.settle) t0 := by
  induction w generalizing t0 with
  | nil => cases hm
  | cons hd tl ih =>
    simp only [List.foldl]
    rcases List.mem_cons.mp hm with h1 | h1
    · subst h1
      exact le_trans (le_max_right t0 hk.settle)
        (foldl_max_init_le tl (max t0 hk.settle))
    · exact ih (max t0 hd.settle) h1

theorem waveFulfillTime_sound (t0 : Nat) (w : List Hook) (t : Nat)
    (h : waveFulfillTime t0 w = some t) :
    t0 ≤ t ∧ ∀ hk ∈ w, hk.ok = true ∧ hk.settle ≤ t := by
  unfold waveFulfillTime at h
  by_cases hall : w.all (fun h => h.ok) = true
  · rw [if_pos hall, Option.some_inj] at h
    subst h
    refine ⟨foldl_max_init_le w t0, ?_⟩
    intro hk hm
    exact ⟨List.all_eq_true.mp hall hk hm, mem_settle_le_foldl w t0 hk hm⟩
  · rw [if_neg hall] at h
    exact absurd h (by simp)

/-- C5: the three lifecycle waves are strictly sequential — whenever wave
n+1 has a start time t, every hook of every earlier wave fulfilled and had
settled by t; in particular, when the page-controller wave of boot's wave
sequence (services, then mediators, then page controllers) starts at t,
every service hook and every mediator hook has settled by t. -/
theorem c5_wave_ordering :
    (∀ (ws : List (List Hook)) (n t : Nat), startOfWave ws (n + 1) = some t →
      ∀ i, i ≤ n → ∀ w, ws[i]? = some w →
        ∀ hk ∈ w, hk.ok = true ∧ hk.settle ≤ t) ∧
    (∀ (s m p : List Hook) (t : Nat),
      startOfWave (bootLifecycleWaves s m p) 2 = some t →
      ∀ hk, hk ∈ s ∨ hk ∈ m → hk.ok = true ∧ hk.settle ≤ t) := by
  have main : ∀ (ws : List (List Hook)) (n t : Nat),
      startOfWave ws (n + 1) = some t →
      ∀ i, i ≤ n → ∀ w, ws[i]? = some w →
        ∀ hk ∈ w, hk.ok = true ∧ hk.settle ≤ t := by
    intro ws n
    induction n with
    | zero =>
      intro t h i hi w hw hk hm
      interval_cases i
      unfold startOfWave at h
      rcases hws : ws[0]? with _ | w0
      · rw [hws] at h
        simp [startOfWave] at h
      · rw [hws] at h
        simp only [startOfWave] at h
        rw [hws] at hw
        cases hw
        exact (waveFulfillTime_sound 0 w t h).2 hk hm
    | succ n ih =>
      intro t h i hi w hw hk hm
      unfold startOfWave at h
      rcases hprev : startOfWave ws (n + 1) with _ | t'
      · rw [hprev] at h
        simp at h
      · rw [hprev] at h
        rcases hws : ws[n + 1]? with _ | w'
        · rw [hws] at h
          simp at h
        · rw [hws] at h
          have hsound := waveFulfillTime_sound t' w' t h
          by_cases hcase : i = n + 1
          · subst hcase
            rw [hws] at hw
            cases hw
            exact hsound.2 hk hm
          · have hi' : i ≤ n := by omega
            have := ih t' hprev i hi' w hw hk hm
            exact ⟨this.1, le_trans this.2 hsound.1⟩
  refine ⟨main, ?_⟩
  intro s m p t h hk hm
  have h0 : (bootLifecycleWaves s m p)[0]? = some s := rfl
  have h1 : (bootLifecycleWaves s m p)[1]? = some m := rfl
  rcases hm with hs | hmm
  · exact main (bootLifecycleWaves s m p) 1 t h 0 (by omega) s h0 hk hs
  · exact main (bootLifecycleWaves s m p) 1 t h 1 (by omega) m h1 hk hmm

theorem c5_wave_ordering_witness :
    startOfWave (bootLifecycleWaves hooksS hooksM hooksP) 2 = some 2 ∧
    ((⟨1, true⟩ : Hook).ok = true ∧ (⟨1, true⟩ : Hook).settle ≤ 2) :=
  ⟨rfl, c5_wave_ordering.2 hooksS hooksM hooksP 2 rfl ⟨1, true⟩
    (Or.inl (by decide))⟩

/-! ## State-evolution invariant of the construction walk -/

theorem evolvesRefl (st : Hst) : Evolves st st :=
  ⟨rfl, rfl, rfl, rfl, rfl, rfl, Nat.le_refl _,
   fun _ _ h => h, fun _ _ h => Or.inl h, fun h => h⟩

theorem evolvesTrans {s1 s2 s3 : Hst} (a : Evolves s1 s2) (b : Evolves s2 s3) :
    Evolves s1 s3 := by
  refine ⟨?_, ?_, ?_, ?_, ?_, ?_, ?_, ?_, ?_, ?_⟩
  · rw [b.sdefs, a.sdefs]
  · rw [b.mdefs, a.mdefs]
  · rw [b.pdefs, a.pdefs]
  · rw [b.svcs, a.svcs]
  · rw [b.pcs, a.pcs]
  · rw [b.comps, a.comps]
  · exact le_trans a.nid b.nid
  · intro k v h
    exact b.medMono k v (a.medMono k v h)
  · intro k v h
    rcases b.medNew k v h with h2 | h2
    · rcases a.medNew k v h2 with h3 | h3
      · exact Or.inl h3
      · exact Or.inr ⟨h3.1, lt_of_lt_of_le h3.2 b.nid⟩
    · exact Or.inr ⟨le_trans a.nid h2.1, h2.2⟩
  · intro h
    exact b.wf (a.wf h)

/-- The state change of the allocate-and-store step of constructMediator,
from the post-resolution state st1, given that the key was absent in the
pre-state st. -/
theorem evolvesMediatorInsert {st st1 : Hst} (key name : String)
    (calls : List (String × List Value))
    (E1 : Evolves st st1) (hkey : lookupA st.mediators key = none) :
    Evolves st
      { st1 with
        nextId := st1.nextId + 1,
        ctorCalls := calls,
        mediators := setA st1.mediators key ⟨name, st1.nextId⟩ } := by
  refine ⟨E1.sdefs, E1.mdefs, E1.pdefs, E1.svcs, E1.pcs, E1.comps, ?_, ?_, ?_, ?_⟩
  · exact le_trans E1.nid (Nat.le_succ _)
  · intro k v h
    have hkne : k ≠ key := by
      intro he
      rw [he, hkey] at h
      exact absurd h (by simp)
    show lookupA (setA st1.mediators key ⟨name, st1.nextId⟩) k = some v
    rw [lookupA_setA_ne _ _ _ _ hkne]
    exact E1.medMono k v h
  · intro k v h
    by_cases hk : k = key
    · rw [hk, lookupA_setA_self] at h
      injection h with h
      subst h
      exact Or.inr ⟨E1.nid, Nat.lt_succ_self _⟩
    · rw [lookupA_setA_ne _ _ _ _ hk] at h
      rcases E1.medNew k v h with h2 | h2
      · exact Or.inl h2
      · exact Or.inr ⟨h2.1, Nat.lt_succ_of_lt h2.2⟩
  · intro hwf
    have hw1 := E1.wf hwf
    constructor
    · intro k v h
      by_cases hk : k = key
      · rw [hk, lookupA_setA_self] at h
        injection h with h
        subst h
        exact Nat.lt_succ_self _
      · rw [lookupA_setA_ne _ _ _ _ hk] at h
        exact Nat.lt_succ_of_lt (hw1.1 k v h)
    · intro k1 k2 v1 v2 h1 h2 hne
      by_cases hk1 : k1 = key
      · rw [hk1, lookupA_setA_self] at h1
        injection h1 with h1
        subst h1
        have hk2 : k2 ≠ key := by
          rw [hk1] at hne
          exact fun hh => hne hh.symm
        rw [lookupA_setA_ne _ _ _ _ hk2] at h2
        have := hw1.1 k2 v2 h2
        simp only []
        omega
      · by_cases hk2 : k2 = key
        · rw [hk2, lookupA_setA_self] at h2
          injection h2 with h2
          subst h2
          rw [lookupA_setA_ne _ _ _ _ hk1] at h1
          have := hw1.1 k1 v1 h1
          simp only []
          omega
        · rw [lookupA_setA_ne _ _ _ _ hk1] at h1
          rw [lookupA_setA_ne _ _ _ _ hk2] at h2
          exact hw1.2 k1 k2 v1 v2 h1 h2 hne

/-- Every call into the mediator-construction machinery evolves the state
according to Evolves: nothing but the mediator registry, the allocation
counter and the call log can change, and only by adding freshly allocated
instances. -/
theorem evolve_all (fuel : Nat) :
    (∀ doc st name params options,
      Evolves st (constructMediator doc fuel st name params options).2) ∧
    (∀ doc st mty options,
      Evolves st (getMediatorInstance doc fuel st mty options).2) ∧
    (∀ doc st params options mname,
      Evolves st (resolveDependencies doc fuel st params options mname).2) := by
  induction fuel with
  | zero =>
    refine ⟨?_, ?_, ?_⟩ <;> intros <;> exact evolvesRefl _
  | succ fuel ih =>
    obtain ⟨ihC, ihG, ihR⟩ := ih
    refine ⟨?_, ?_, ?_⟩
    · intro doc st name params options
      cases hm : lookupA st.mediators (mediatorKey name options) with
      | some inst =>
        have h2 : (constructMediator doc (fuel + 1) st name params options).2 = st := by
          simp only [constructMediator, hm]
        rw [h2]
        exact evolvesRefl st
      | none =>
        rcases hr : resolveDependencies doc fuel st params options (some name)
          with ⟨r, st1⟩
        have E1 : Evolves st st1 := by
          have h := ihR doc st params options (some name)
          rw [hr] at h
          exact h
        cases r with
        | error e =>
          have h2 : (constructMediator doc (fuel + 1) st name params options).2 = st1 := by
            simp only [constructMediator, hm, hr]
          rw [h2]
          exact E1
        | ok deps =>
          have h2 : (constructMediator doc (fuel + 1) st name params options).2 =
              { st1 with
                nextId := st1.nextId + 1,
                ctorCalls := st1.ctorCalls ++
                  [(name, deps ++ [optionsValue options])],
                mediators := setA st1.mediators (mediatorKey name options)
                  ⟨name, st1.nextId⟩ } := by
            simp only [constructMediator, hm, hr]
          rw [h2]
          exact evolvesMediatorInsert (mediatorKey name options) name _ E1 hm
    · intro doc st mty options
      cases hd : lookupA st.mediatorDefinitions mty with
      | none =>
        have h2 : (getMediatorInstance doc (fuel + 1) st mty options).2 = st := by
          simp only [getMediatorInstance, hd]
        rw [h2]
        exact evolvesRefl st
      | some params =>
        have h2 : (getMediatorInstance doc (fuel + 1) st mty options).2 =
            (constructMediator doc fuel st mty params options).2 := by
          simp only [getMediatorInstance, hd]
        rw [h2]
        exact ihC doc st mty params options
    · intro doc st params options mname
      cases params with
      | nil => exact evolvesRefl st
      | cons p rest =>
        cases p with
        | serviceDep sty =>
          cases hg : getServiceInstance st sty none with
          | error e =>
            have h2 : (resolveDependencies doc (fuel + 1) st
                (DepParam.serviceDep sty :: rest) options mname).2 = st := by
              simp only [resolveDependencies, hg]
            rw [h2]
            exact evolvesRefl st
          | ok inst =>
            rcases hr : resolveDependencies doc fuel st rest options mname
              with ⟨r2, st1⟩
            have E : Evolves st st1 := by
              have h := ihR doc st rest options mname
              rw [hr] at h
              exact h
            cases r2 with
            | error e =>
              have h2 : (resolveDependencies doc (fuel + 1) st
                  (DepParam.serviceDep sty :: rest) options mname).2 = st1 := by
                simp only [resolveDependencies, hg, hr]
              rw [h2]
              exact E
            | ok vs =>
              have h2 : (resolveDependencies doc (fuel + 1) st
                  (DepParam.serviceDep sty :: rest) options mname).2 = st1 := by
                simp only [resolveDependencies, hg, hr]
              rw [h2]
              exact E
        | mediatorDep mty mopts =>
          rcases hg : getMediatorInstance doc fuel st mty mopts with ⟨rg, st1⟩
          have E1 : Evolves st st1 := by
            have h := ihG doc st mty mopts
            rw [hg] at h
            exact h
          cases rg with
          | error e =>
            have h2 : (resolveDependencies doc (fuel + 1) st
                (DepParam.mediatorDep mty mopts :: rest) options mname).2 = st1 := by
              simp only [resolveDependencies, hg]
            rw [h2]
            exact E1
          | ok inst =>
            rcases hr : resolveDependencies doc fuel st1 rest options mname
              with ⟨r2, st2⟩
            have E2 : Evolves st1 st2 := by
              have h := ihR doc st1 rest options mname
              rw [hr] at h
              exact h
            cases r2 with
            | error e =>
              have h2 : (resolveDependencies doc (fuel + 1) st
                  (DepParam.mediatorDep mty mopts :: rest) options mname).2 = st2 := by
                simp only [resolveDependencies, hg, hr]
              rw [h2]
              exact evolvesTrans E1 E2
            | ok vs =>
              have h2 : (resolveDependencies doc (fuel + 1) st
                  (DepParam.mediatorDep mty mopts :: rest) options mname).2 = st2 := by
                simp only [resolveDependencies, hg, hr]
              rw [h2]
              exact evolvesTrans E1 E2
        | elementSchemaDep schema =>
          cases hs : resolveElementsFromSchema doc schema mname
              (options.map (fun o => o.qualifier)) with
          | error e =>
            have h2 : (resolveDependencies doc (fuel + 1) st
                (DepParam.elementSchemaDep schema :: rest) options mname).2 = st := by
              simp only [resolveDependencies, hs]
            rw [h2]
            exact evolvesRefl st
          | ok resolved =>
            cases hv : validateElementsAgainstSchema resolved schema
                ((mname).getD ("Unknown")) with
            | error e =>
              have h2 : (resolveDependencies doc (fuel + 1) st
                  (DepParam.elementSchemaDep schema :: rest) options mname).2 = st := by
                simp only [resolveDependencies, hs, hv]
              rw [h2]
              exact evolvesRefl st
            | ok validated =>
              rcases hr : resolveDependencies doc fuel st rest options mname
                with ⟨r2, st1⟩
              have E : Evolves st st1 := by
                have h := ihR doc st rest options mname
                rw [hr] at h
                exact h
              cases r2 with
              | error e =>
                have h2 : (resolveDependencies doc (fuel + 1) st
                    (DepParam.elementSchemaDep schema :: rest) options mname).2 = st1 := by
                  simp only [resolveDependencies, hs, hv, hr]
                rw [h2]
                exact E
              | ok vs =>
                have h2 : (resolveDependencies doc (fuel + 1) st
                    (DepParam.elementSchemaDep schema :: rest) options mname).2 = st1 := by
                  simp only [resolveDependencies, hs, hv, hr]
                rw [h2]
                exact E
        | pageElementContainerDep pec =>
          cases hp : pageElements pec doc options with
          | error e =>
            have h2 : (resolveDependencies doc (fuel + 1) st
                (DepParam.pageElementContainerDep pec :: rest) options mname).2 = st := by
              simp only [resolveDependencies, hp]
            rw [h2]
            exact evolvesRefl st
          | ok m =>
            rcases hr : resolveDependencies doc fuel st rest options mname
              with ⟨r2, st1⟩
            have E : Evolves st st1 := by
              have h := ihR doc st rest options mname
              rw [hr] at h
              exact h
            cases r2 with
            | error e =>
              have h2 : (resolveDependencies doc (fuel + 1) st
                  (DepParam.pageElementContainerDep pec :: rest) options mname).2 = st1 := by
                simp only [resolveDependencies, hp, hr]
              rw [h2]
              exact E
            | ok vs =>
              have h2 : (resolveDependencies doc (fuel + 1) st
                  (DepParam.pageElementContainerDep pec :: rest) options mname).2 = st1 := by
                simp only [resolveDependencies, hp, hr]
              rw [h2]
              exact E
        | valueDep v =>
          rcases hr : resolveDependencies doc fuel st rest options mname
            with ⟨r2, st1⟩
          have E : Evolves st st1 := by
            have h := ihR doc st rest options mname
            rw [hr] at h
            exact h
          by_cases hv : (v == Value.undef) = true
          · have h2 : (resolveDependencies doc (fuel + 1) st
                (DepParam.valueDep v :: rest) options mname).2 = st1 := by
              simp only [resolveDependencies, hv, if_pos, hr]
            rw [h2]
            exact E
          · cases r2 with
            | error e =>
              have h2 : (resolveDependencies doc (fuel + 1) st
                  (DepParam.valueDep v :: rest) options mname).2 = st1 := by
                simp only [resolveDependencies, hv, hr]
                simp
              rw [h2]
              exact E
            | ok vs =>
              have h2 : (resolveDependencies doc (fuel + 1) st
                  (DepParam.valueDep v :: rest) options mname).2 = st1 := by
                simp only [resolveDependencies, hv, hr]
                simp
              rw [h2]
              exact E

/-! ## Claim C3: memoization and per-qualifier identity -/

theorem string_append_empty (s : String) : s ++ "" = s := by
  apply String.ext
  rw [String.data_append]
  show s.data ++ [] = s.data
  simp

theorem mediatorKey_eq (n q : String) :
    mediatorKey n (some ⟨q⟩) = if q = "" then n ++ "" else n ++ ("_" ++ q) := by
  unfold mediatorKey
  by_cases h : q = "" <;> simp [h]

theorem mediatorKey_qualifier_ne (n q1 q2 : String) (h : q1 ≠ q2) :
    mediatorKey n (some ⟨q1⟩) ≠ mediatorKey n (some ⟨q2⟩) := by
  rw [mediatorKey_eq, mediatorKey_eq]
  have e0 : ("" : String).data = [] := rfl
  have e1 : ("_" : String).data = ['_'] := rfl
  by_cases h1 : q1 = ""
  · by_cases h2 : q2 = ""
    · exact absurd (h1.trans h2.symm) h
    · rw [if_pos h1, if_neg h2]
      intro he
      have hd := congrArg String.data he
      simp only [String.data_append] at hd
      have hc := List.append_cancel_left hd
      exact absurd hc (by simp)
  · by_cases h2 : q2 = ""
    · rw [if_neg h1, if_pos h2]
      intro he
      have hd := congrArg String.data he
      simp only [String.data_append] at hd
      have hc := List.append_cancel_left hd
      exact absurd hc (by simp)
    · rw [if_neg h1, if_neg h2]
      intro he
      have hd := congrArg String.data he
      simp only [String.data_append] at hd
      have hc := List.append_cancel_left hd
      have hc2 := List.append_cancel_left hc
      exact absurd (String.ext hc2) h

/-- A successful constructMediator call leaves the produced instance stored
under its key, and the instance is either the pre-existing memoized one or
freshly allocated. -/
theorem constructMediator_ok_char (doc : List Dom) (fuel : Nat) (st : Hst)
    (name : String) (params : List DepParam) (options : Option MediatorOptions)
    (inst : Inst)
    (h : (constructMediator doc fuel st name params options).1 = .ok inst) :
    lookupA (constructMediator doc fuel st name params options).2.mediators
      (mediatorKey name options) = some inst ∧
    (lookupA st.mediators (mediatorKey name options) = some inst ∨
      st.nextId ≤ inst.id) := by
  cases fuel with
  | zero => exact absurd h (by simp [constructMediator])
  | succ fuel =>
    cases hm : lookupA st.mediators (mediatorKey name options) with
    | some i =>
      have h1 : constructMediator doc (fuel + 1) st name params options =
          (.ok i, st) := by
        simp only [constructMediator, hm]
      rw [h1] at h
      injection h with hii
      rw [h1]
      exact ⟨hii ▸ hm, Or.inl (congrArg some hii)⟩
    | none =>
      rcases hr : resolveDependencies doc fuel st params options (some name)
        with ⟨r, st1⟩
      cases r with
      | error e =>
        have h1 : constructMediator doc (fuel + 1) st name params options =
            (.error e, st1) := by
          simp only [constructMediator, hm, hr]
        rw [h1] at h
        exact absurd h (by simp)
      | ok deps =>
        have h1 : constructMediator doc (fuel + 1) st name params options =
            (.ok ⟨name, st1.nextId⟩,
              { st1 with
                nextId := st1.nextId + 1,
                ctorCalls := st1.ctorCalls ++
                  [(name, deps ++ [optionsValue options])],
                mediators := setA st1.mediators (mediatorKey name options)
                  ⟨name, st1.nextId⟩ }) := by
          simp only [constructMediator, hm, hr]
        rw [h1] at h ⊢
        injection h with h
        subst h
        constructor
        · exact lookupA_setA_self _ _ _
        · right
          have E : Evolves st st1 := by
            have h3 := (evolve_all fuel).2.2 doc st params options (some name)
            rw [hr] at h3
            exact h3
          exact E.nid

/-- C3: one boot resolves a Service type to the reference-identical
instance on repeated construction and a (Mediator type, qualifier) pair to
the reference-identical instance on repeated construction (memoized, never
re-entered for a completed key), two different qualifiers of one Mediator
type yield two distinct instances, and the mediator registry key is the
type name or the type name underscore qualifier. -/
theorem c3_singleton_per_key :
    (∀ st n ps ps' inst st',
      constructService st n ps = (.ok inst, st') →
      constructService st' n ps' = (.ok inst, st')) ∧
    (∀ doc fuel fuel' st n ps ps' options inst st',
      constructMediator doc fuel st n ps options = (.ok inst, st') →
      constructMediator doc (fuel' + 1) st' n ps' options = (.ok inst, st')) ∧
    (∀ doc fuel fuel' st n ps ps' q1 q2 inst1 inst2 st1 st2,
      WfMediators st → q1 ≠ q2 →
      constructMediator doc fuel st n ps (some ⟨q1⟩) = (.ok inst1, st1) →
      constructMediator doc fuel' st1 n ps' (some ⟨q2⟩) = (.ok inst2, st2) →
      inst1 ≠ inst2) ∧
    (∀ n options, mediatorKey n options = n ∨
      ∃ q, options = some ⟨q⟩ ∧ mediatorKey n options = n ++ ("_" ++ q)) := by
  refine ⟨?_, ?_, ?_, ?_⟩
  · intro st n ps ps' inst st' h
    cases hm : lookupA st.services n with
    | some i =>
      have h1 : constructService st n ps = (.ok i, st) := by
        simp only [constructService, hm]
      rw [h1] at h
      rw [Prod.mk.injEq] at h
      obtain ⟨ha, hb⟩ := h
      injection ha with ha
      subst ha
      subst hb
      simp only [constructService, hm]
    | none =>
      cases hd : ps.mapM (fun p =>
          match p with
          | .serviceDep sty => (getServiceInstance st sty none).map Value.instV
          | .valueDep v => .ok v) with
      | error e =>
        have h1 : constructService st n ps = (.error e, st) := by
          simp only [constructService, hm, hd]
        rw [h1] at h
        rw [Prod.mk.injEq] at h
        exact absurd h.1 (by simp)
      | ok deps =>
        have h1 : constructService st n ps =
            (.ok ⟨n, st.nextId⟩,
              { st with
                nextId := st.nextId + 1,
                ctorCalls := st.ctorCalls ++ [(n, deps)],
                services := setA st.services n ⟨n, st.nextId⟩ }) := by
          simp only [constructService, hm, hd]
        rw [h1] at h
        rw [Prod.mk.injEq] at h
        obtain ⟨ha, hb⟩ := h
        injection ha with ha
        have hlook : lookupA st'.services n = some inst := by
          rw [← hb, ← ha]
          exact lookupA_setA_self _ _ _
        simp only [constructService, hlook]
  · intro doc fuel fuel' st n ps ps' options inst st' h
    have h1 : (constructMediator doc fuel st n ps options).1 = .ok inst := by
      rw [h]
    have h2 : (constructMediator doc fuel st n ps options).2 = st' := by
      rw [h]
    have hchar := (constructMediator_ok_char doc fuel st n ps options inst h1).1
    rw [h2] at hchar
    simp only [constructMediator, hchar]
  · intro doc fuel fuel' st n ps ps' q1 q2 inst1 inst2 st1 st2 hwf hne hc1 hc2
    have h1a : (constructMediator doc fuel st n ps (some ⟨q1⟩)).1 = .ok inst1 := by
      rw [hc1]
    have h1b : (constructMediator doc fuel st n ps (some ⟨q1⟩)).2 = st1 := by
      rw [hc1]
    have h2a : (constructMediator doc fuel' st1 n ps' (some ⟨q2⟩)).1 = .ok inst2 := by
      rw [hc2]
    have hl1 := (constructMediator_ok_char doc fuel st n ps (some ⟨q1⟩) inst1 h1a).1
    rw [h1b] at hl1
    have hwf1 : WfMediators st1 := by
      have E := (evolve_all fuel).1 doc st n ps (some ⟨q1⟩)
      rw [h1b] at E
      exact E.wf hwf
    have hc2char := constructMediator_ok_char doc fuel' st1 n ps' (some ⟨q2⟩)
      inst2 h2a
    have hkey := mediatorKey_qualifier_ne n q1 q2 hne
    intro heq
    rcases hc2char.2 with hcase | hcase
    · have hids := hwf1.2 (mediatorKey n (some ⟨q1⟩)) (mediatorKey n (some ⟨q2⟩))
        inst1 inst2 hl1 hcase hkey
      rw [heq] at hids
      exact hids rfl
    · have hlt := hwf1.1 (mediatorKey n (some ⟨q1⟩)) inst1 hl1
      rw [heq] at hlt
      omega
  · intro n options
    cases options with
    | none => exact Or.inl (string_append_empty n)
    | some o =>
      by_cases h : o.qualifier = ""
      · left
        rw [show o = (⟨o.qualifier⟩ : MediatorOptions) from rfl, mediatorKey_eq,
          if_pos h]
        exact string_append_empty n
      · right
        refine ⟨o.qualifier, rfl, ?_⟩
        rw [show o = (⟨o.qualifier⟩ : MediatorOptions) from rfl, mediatorKey_eq,
          if_neg h]

theorem c3_singleton_per_key_witness :
    ("a" : String) ≠ "b" ∧ (⟨"M", 0⟩ : Inst) ≠ ⟨"M", 1⟩ :=
  ⟨by decide,
   c3_singleton_per_key.2.2.1 [] 2 2 emptyHst ("M") [] [] ("a") ("b")
     ⟨"M", 0⟩ ⟨"M", 1⟩ stMa stMab
     ⟨fun k v h => by simp [emptyHst, lookupA] at h,
      fun k1 k2 v1 v2 h1 h2 hne => by simp [emptyHst, lookupA] at h1⟩
     (by decide) rfl rfl⟩

/-! ## Claim C1: ServiceRef resolution -/

theorem mapM_except_ok {α β : Type} (f : α → Except String β) :
    ∀ (ps : List α) (vs : List β), ps.mapM f = .ok vs →
      vs.length = ps.length ∧
      ∀ (i : Nat) (p : α), ps[i]? = some p → ∃ v, f p = .ok v ∧ vs[i]? = some v := by
  intro ps
  induction ps with
  | nil =>
    intro vs h
    rw [List.mapM_nil] at h
    injection h with h
    subst h
    refine ⟨rfl, ?_⟩
    intro i p hp
    simp at hp
  | cons hd tl ih =>
    intro vs h
    rw [List.mapM_cons] at h
    cases hf : f hd with
    | error e =>
      rw [hf] at h
      simp [Bind.bind, Except.bind] at h
    | ok b =>
      rw [hf] at h
      cases ht : tl.mapM f with
      | error e =>
        rw [ht] at h
        simp [Bind.bind, Except.bind] at h
      | ok bs =>
        rw [ht] at h
        simp only [Bind.bind, Except.bind, pure, Except.pure] at h
        injection h with h
        subst h
        obtain ⟨hlen, hidx⟩ := ih bs ht
        refine ⟨by simp [hlen], ?_⟩
        intro i p hp
        cases i with
        | zero =>
          simp at hp
          subst hp
          exact ⟨b, hf, by simp⟩
        | succ i =>
          simp at hp
          simp only [List.getElem?_cons_succ]
          exact hidx i p hp

theorem mapM_except_error {α β : Type} (f : α → Except String β) :
    ∀ (ps : List α) (p : α), p ∈ ps → (∃ e, f p = .error e) →
      ∃ e, ps.mapM f = .error e := by
  intro ps
  induction ps with
  | nil =>
    intro p hp
    cases hp
  | cons hd tl ih =>
    intro p hp ⟨e, hfe⟩
    rw [List.mapM_cons]
    rcases List.mem_cons.mp hp with h1 | h1
    · subst h1
      rw [hfe]
      exact ⟨e, by simp [Bind.bind, Except.bind]⟩
    · cases hf : f hd with
      | error e2 => exact ⟨e2, by simp [Bind.bind, Except.bind]⟩
      | ok b =>
        obtain ⟨e3, he3⟩ := ih p h1 ⟨e, hfe⟩
        rw [he3]
        exact ⟨e3, by simp [Bind.bind, Except.bind]⟩

theorem getServiceInstance_ok (st : Hst) (sty : String) (nm : Option String)
    (w : Inst) (h : getServiceInstance st sty nm = .ok w) :
    lookupA st.services (getKey sty nm) = some w ∧ w.typeName = sty := by
  simp only [getServiceInstance] at h
  split at h
  next serv heq =>
    split at h
    next ht =>
      injection h with h
      subst h
      exact ⟨heq, beq_iff_eq.mp ht⟩
    next ht => exact absurd h (by simp)
  next heq => exact absurd h (by simp)

theorem getServiceInstance_none (st : Hst) (sty : String) (nm : Option String)
    (h : lookupA st.services (getKey sty nm) = none) :
    getServiceInstance st sty nm = .error (serviceNotFoundMsg sty nm) := by
  simp only [getServiceInstance, h]

/-- C1 (amended): resolving a ServiceRef(S) declaration during service
construction looks S up in the already-constructed service registry and
appends exactly that instance at the declaration position; it never
constructs S on demand — when no instance of S exists yet (for example
because S was registered after the dependent unit), the construction throws
the register-it-first error instead. -/
theorem c1_serviceRef_resolution :
    (∀ st name params inst st',
      lookupA st.services name = none →
      constructService st name params = (.ok inst, st') →
      ∃ deps,
        st'.ctorCalls = st.ctorCalls ++ [(name, deps)] ∧
        deps.length = params.length ∧
        ∀ (i : Nat) (sty : String), params[i]? = some (SParam.serviceDep sty) →
          ∃ w, lookupA st.services (getKey sty none) = some w ∧
            w.typeName = sty ∧ deps[i]? = some (Value.instV w)) ∧
    (∀ st name params sty,
      lookupA st.services name = none →
      (SParam.serviceDep sty) ∈ params →
      lookupA st.services (getKey sty none) = none →
      ∃ e, constructService st name params = (.error e, st)) := by
  constructor
  · intro st name params inst st' hmiss hok
    cases hd : params.mapM (fun p =>
        match p with
        | .serviceDep sty => (getServiceInstance st sty none).map Value.instV
        | .valueDep v => .ok v) with
    | error e =>
      have h1 : constructService st name params = (.error e, st) := by
        simp only [constructService, hmiss, hd]
      rw [h1] at hok
      rw [Prod.mk.injEq] at hok
      exact absurd hok.1 (by simp)
    | ok deps =>
      have h1 : constructService st name params =
          (.ok ⟨name, st.nextId⟩,
            { st with
              nextId := st.nextId + 1,
              ctorCalls := st.ctorCalls ++ [(name, deps)],
              services := setA st.services name ⟨name, st.nextId⟩ }) := by
        simp only [constructService, hmiss, hd]
      rw [h1] at hok
      rw [Prod.mk.injEq] at hok
      refine ⟨deps, ?_, ?_, ?_⟩
      · rw [← hok.2]
      · exact (mapM_except_ok _ params deps hd).1
      · intro i sty hi
        obtain ⟨v, hfv, hdi⟩ := (mapM_except_ok _ params deps hd).2 i _ hi
        have hfv2 : (getServiceInstance st sty none).map Value.instV = .ok v := hfv
        cases hserv : getServiceInstance st sty none with
        | error e =>
          rw [hserv] at hfv2
          exact absurd hfv2 (by simp [Except.map])
        | ok w =>
          rw [hserv] at hfv2
          simp only [Except.map] at hfv2
          injection hfv2 with hfv2
          obtain ⟨hlook, htype⟩ := getServiceInstance_ok st sty none w hserv
          refine ⟨w, hlook, htype, ?_⟩
          rw [← hfv2] at hdi
          exact hdi
  · intro st name params sty hmiss hmem hnone
    have herr : ∃ e, ((fun p =>
        match p with
        | SParam.serviceDep sty => (getServiceInstance st sty none).map Value.instV
        | SParam.valueDep v => Except.ok v) (SParam.serviceDep sty)) = .error e := by
      refine ⟨serviceNotFoundMsg sty none, ?_⟩
      show (getServiceInstance st sty none).map Value.instV = _
      rw [getServiceInstance_none st sty none hnone]
      rfl
    obtain ⟨e, he⟩ := mapM_except_error (fun p =>
        match p with
        | SParam.serviceDep sty => (getServiceInstance st sty none).map Value.instV
        | SParam.valueDep v => Except.ok v) params _ hmem herr
    refine ⟨e, ?_⟩
    simp only [constructService, hmiss, he]

theorem c1_serviceRef_resolution_witness :
    lookupA stWithS.services ("A") = none ∧
    constructService stWithS ("A") [SParam.serviceDep ("S")] =
      (.ok ⟨"A", 8⟩, stWithSA) ∧
    (∃ deps,
      stWithSA.ctorCalls = stWithS.ctorCalls ++ [("A", deps)] ∧
      deps.length = [SParam.serviceDep ("S")].length ∧
      ∀ (i : Nat) (sty : String), [SParam.serviceDep ("S")][i]? = some (SParam.serviceDep sty) →
        ∃ w, lookupA stWithS.services (getKey sty none) = some w ∧
          w.typeName = sty ∧ deps[i]? = some (Value.instV w)) :=
  ⟨rfl, rfl,
   c1_serviceRef_resolution.1 stWithS ("A") [SParam.serviceDep ("S")]
     ⟨"A", 8⟩ stWithSA rfl rfl⟩

/-! ## Claim C2: positional fidelity -/

theorem getServiceInstance_eq_of_services_eq {st st' : Hst}
    (h : st'.services = st.services) (sty : String) (nm : Option String) :
    getServiceInstance st' sty nm = getServiceInstance st sty nm := by
  unfold getServiceInstance
  rw [h]

theorem resolveDependencies_eq_spec (doc : List Dom)
    (options : Option MediatorOptions) (mname : Option String) :
    ∀ fuel st params, noUndefLiteral params = true →
      resolveDependencies doc fuel st params options mname =
        resolveDependenciesSpec doc fuel st params options mname := by
  intro fuel
  induction fuel with
  | zero =>
    intro st params _
    rfl
  | succ fuel ih =>
    intro st params h
    cases params with
    | nil => rfl
    | cons p rest =>
      cases p with
      | serviceDep sty =>
        have hrest : noUndefLiteral rest = true := by
          rw [noUndefLiteral, List.all_cons, Bool.and_eq_true] at h
          exact h.2
        have hrec := ih st rest hrest
        cases hg : getServiceInstance st sty none with
        | error e => simp only [resolveDependencies, resolveDependenciesSpec, hg]
        | ok inst => simp only [resolveDependencies, resolveDependenciesSpec, hg, hrec]
      | mediatorDep mty mopts =>
        have hrest : noUndefLiteral rest = true := by
          rw [noUndefLiteral, List.all_cons, Bool.and_eq_true] at h
          exact h.2
        rcases hg : getMediatorInstance doc fuel st mty mopts with ⟨rg, st1⟩
        cases rg with
        | error e => simp only [resolveDependencies, resolveDependenciesSpec, hg]
        | ok inst =>
          have hrec := ih st1 rest hrest
          simp only [resolveDependencies, resolveDependenciesSpec, hg, hrec]
      | elementSchemaDep schema =>
        have hrest : noUndefLiteral rest = true := by
          rw [noUndefLiteral, List.all_cons, Bool.and_eq_true] at h
          exact h.2
        have hrec := ih st rest hrest
        cases hs : resolveElementsFromSchema doc schema mname
            (options.map (fun o => o.qualifier)) with
        | error e => simp only [resolveDependencies, resolveDependenciesSpec, hs]
        | ok resolved =>
          cases hv : validateElementsAgainstSchema resolved schema
              ((mname).getD ("Unknown")) with
          | error e =>
            simp only [resolveDependencies, resolveDependenciesSpec, hs, hv]
          | ok validated =>
            simp only [resolveDependencies, resolveDependenciesSpec, hs, hv, hrec]
      | pageElementContainerDep pec =>
        have hrest : noUndefLiteral rest = true := by
          rw [noUndefLiteral, List.all_cons, Bool.and_eq_true] at h
          exact h.2
        have hrec := ih st rest hrest
        cases hp : pageElements pec doc options with
        | error e => simp only [resolveDependencies, resolveDependenciesSpec, hp]
        | ok m => simp only [resolveDependencies, resolveDependenciesSpec, hp, hrec]
      | valueDep v =>
        cases v with
        | undef => simp [noUndefLiteral] at h
        | raw s =>
          have hrest : noUndefLiteral rest = true := by
            rw [noUndefLiteral, List.all_cons, Bool.and_eq_true] at h
            exact h.2
          have hrec := ih st rest hrest
          have hne : ((Value.raw s) == Value.undef) = false := rfl
          simp only [resolveDependencies, resolveDependenciesSpec, hne, hrec]
          simp
        | instV i =>
          have hrest : noUndefLiteral rest = true := by
            rw [noUndefLiteral, List.all_cons, Bool.and_eq_true] at h
            exact h.2
          have hrec := ih st rest hrest
          have hne : ((Value.instV i) == Value.undef) = false := rfl
          simp only [resolveDependencies, resolveDependenciesSpec, hne, hrec]
          simp
        | optsV o =>
          have hrest : noUndefLiteral rest = true := by
            rw [noUndefLiteral, List.all_cons, Bool.and_eq_true] at h
            exact h.2
          have hrec := ih st rest hrest
          have hne : ((Value.optsV o) == Value.undef) = false := rfl
          simp only [resolveDependencies, resolveDependenciesSpec, hne, hrec]
          simp
        | elemsV m =>
          have hrest : noUndefLiteral rest = true := by
            rw [noUndefLiteral, List.all_cons, Bool.and_eq_true] at h
            exact h.2
          have hrec := ih st rest hrest
          have hne : ((Value.elemsV m) == Value.undef) = false := rfl
          simp only [resolveDependencies, resolveDependenciesSpec, hne, hrec]
          simp

theorem resolveDependenciesSpec_ok_shape (doc : List Dom)
    (options : Option MediatorOptions) (mname : Option String) :
    ∀ fuel st params vs st',
      resolveDependenciesSpec doc fuel st params options mname = (.ok vs, st') →
      vs.length = params.length ∧
      (∀ (i : Nat) (v : Value), params[i]? = some (DepParam.valueDep v) →
        vs[i]? = some v) ∧
      (∀ (i : Nat) (sty : String), params[i]? = some (DepParam.serviceDep sty) →
        ∃ w, getServiceInstance st sty none = .ok w ∧
          vs[i]? = some (Value.instV w)) := by
  intro fuel
  induction fuel with
  | zero =>
    intro st params vs st' h
    rw [show resolveDependenciesSpec doc 0 st params options mname =
      (.error outOfFuelMsg, st) from rfl] at h
    rw [Prod.mk.injEq] at h
    exact absurd h.1 (by simp)
  | succ fuel ih =>
    intro st params vs st' h
    cases params with
    | nil =>
      rw [show resolveDependenciesSpec doc (fuel + 1) st [] options mname =
        (.ok [], st) from rfl] at h
      rw [Prod.mk.injEq] at h
      obtain ⟨h1, _⟩ := h
      injection h1 with h1
      subst h1
      refine ⟨rfl, ?_, ?_⟩ <;> intro i x hi <;> simp at hi
    | cons p rest =>
      cases p with
      | serviceDep sty0 =>
        cases hg : getServiceInstance st sty0 none with
        | error e =>
          have he : resolveDependenciesSpec doc (fuel + 1) st
              (DepParam.serviceDep sty0 :: rest) options mname = (.error e, st) := by
            simp only [resolveDependenciesSpec, hg]
          rw [he] at h
          rw [Prod.mk.injEq] at h
          exact absurd h.1 (by simp)
        | ok inst =>
          rcases hr : resolveDependenciesSpec doc fuel st rest options mname
            with ⟨r2, st1⟩
          cases r2 with
          | error e =>
            have he : resolveDependenciesSpec doc (fuel + 1) st
                (DepParam.serviceDep sty0 :: rest) options mname = (.error e, st1) := by
              simp only [resolveDependenciesSpec, hg, hr]
            rw [he] at h
            rw [Prod.mk.injEq] at h
            exact absurd h.1 (by simp)
          | ok vs' =>
            have he : resolveDependenciesSpec doc (fuel + 1) st
                (DepParam.serviceDep sty0 :: rest) options mname =
                (.ok (.instV inst :: vs'), st1) := by
              simp only [resolveDependenciesSpec, hg, hr]
            rw [he] at h
            rw [Prod.mk.injEq] at h
            obtain ⟨h1, _⟩ := h
            injection h1 with h1
            subst h1
            obtain ⟨hlen, hlit, hsvc⟩ := ih st rest vs' st1 hr
            refine ⟨by simp [hlen], ?_, ?_⟩
            · intro i v hi
              cases i with
              | zero => simp at hi
              | succ i =>
                simp only [List.getElem?_cons_succ] at hi ⊢
                exact hlit i v hi
            · intro i sty hi
              cases i with
              | zero =>
                simp at hi
                subst hi
                exact ⟨inst, hg, by simp⟩
              | succ i =>
                simp only [List.getElem?_cons_succ] at hi ⊢
                exact hsvc i sty hi
      | mediatorDep mty mopts =>
        rcases hg : getMediatorInstance doc fuel st mty mopts with ⟨rg, st1⟩
        cases rg with
        | error e =>
          have he : resolveDependenciesSpec doc (fuel + 1) st
              (DepParam.mediatorDep mty mopts :: rest) options mname =
              (.error e, st1) := by
            simp only [resolveDependenciesSpec, hg]
          rw [he] at h
          rw [Prod.mk.injEq] at h
          exact absurd h.1 (by simp)
        | ok inst =>
          rcases hr : resolveDependenciesSpec doc fuel st1 rest options mname
            with ⟨r2, st2⟩
          cases r2 with
          | error e =>
            have he : resolveDependenciesSpec doc (fuel + 1) st
                (DepParam.mediatorDep mty mopts :: rest) options mname =
                (.error e, st2) := by
              simp only [resolveDependenciesSpec, hg, hr]
            rw [he] at h
            rw [Prod.mk.injEq] at h
            exact absurd h.1 (by simp)
          | ok vs' =>
            have he : resolveDependenciesSpec doc (fuel + 1) st
                (DepParam.mediatorDep mty mopts :: rest) options mname =
                (.ok (.instV inst :: vs'), st2) := by
              simp only [resolveDependenciesSpec, hg, hr]
            rw [he] at h
            rw [Prod.mk.injEq] at h
            obtain ⟨h1, _⟩ := h
            injection h1 with h1
            subst h1
            obtain ⟨hlen, hlit, hsvc⟩ := ih st1 rest vs' st2 hr
            have E : Evolves st st1 := by
              have E0 := (evolve_all fuel).2.1 doc st mty mopts
              rw [hg] at E0
              exact E0
            refine ⟨by simp [hlen], ?_, ?_⟩
            · intro i v hi
              cases i with
              | zero => simp at hi
              | succ i =>
                simp only [List.getElem?_cons_succ] at hi ⊢
                exact hlit i v hi
            · intro i sty hi
              cases i with
              | zero => simp at hi
              | succ i =>
                simp only [List.getElem?_cons_succ] at hi ⊢
                obtain ⟨w, hw, hvi⟩ := hsvc i sty hi
                rw [getServiceInstance_eq_of_services_eq E.svcs sty none] at hw
                exact ⟨w, hw, hvi⟩
      | elementSchemaDep schema =>
        cases hs : resolveElementsFromSchema doc schema mname
            (options.map (fun o => o.qualifier)) with
        | error e =>
          have he : resolveDependenciesSpec doc (fuel + 1) st
              (DepParam.elementSchemaDep schema :: rest) options mname =
              (.error e, st) := by
            simp only [resolveDependenciesSpec, hs]
          rw [he] at h
          rw [Prod.mk.injEq] at h
          exact absurd h.1 (by simp)
        | ok resolved =>
          cases hv : validateElementsAgainstSchema resolved schema
              ((mname).getD ("Unknown")) with
          | error e =>
            have he : resolveDependenciesSpec doc (fuel + 1) st
                (DepParam.elementSchemaDep schema :: rest) options mname =
                (.error e, st) := by
              simp only [resolveDependenciesSpec, hs, hv]
            rw [he] at h
            rw [Prod.mk.injEq] at h
            exact absurd h.1 (by simp)
          | ok validated =>
            rcases hr : resolveDependenciesSpec doc fuel st rest options mname
              with ⟨r2, st1⟩
            cases r2 with
            | error e =>
              have he : resolveDependenciesSpec doc (fuel + 1) st
                  (DepParam.elementSchemaDep schema :: rest) options mname =
                  (.error e, st1) := by
                simp only [resolveDependenciesSpec, hs, hv, hr]
              rw [he] at h
              rw [Prod.mk.injEq] at h
              exact absurd h.1 (by simp)
            | ok vs' =>
              have he : resolveDependenciesSpec doc (fuel + 1) st
                  (DepParam.elementSchemaDep schema :: rest) options mname =
                  (.ok (.elemsV validated :: vs'), st1) := by
                simp only [resolveDependenciesSpec, hs, hv, hr]
              rw [he] at h
              rw [Prod.mk.injEq] at h
              obtain ⟨h1, _⟩ := h
              injection h1 with h1
              subst h1
              obtain ⟨hlen, hlit, hsvc⟩ := ih st rest vs' st1 hr
              refine ⟨by simp [hlen], ?_, ?_⟩
              · intro i v hi
                cases i with
                | zero => simp at hi
                | succ i =>
                  simp only [List.getElem?_cons_succ] at hi ⊢
                  exact hlit i v hi
              · intro i sty hi
                cases i with
                | zero => simp at hi
                | succ i =>
                  simp only [List.getElem?_cons_succ] at hi ⊢
                  exact hsvc i sty hi
      | pageElementContainerDep pec =>
        cases hp : pageElements pec doc options with
        | error e =>
          have he : resolveDependenciesSpec doc (fuel + 1) st
              (DepParam.pageElementContainerDep pec :: rest) options mname =
              (.error e, st) := by
            simp only [resolveDependenciesSpec, hp]
          rw [he] at h
          rw [Prod.mk.injEq] at h
          exact absurd h.1 (by simp)
        | ok m =>
          rcases hr : resolveDependenciesSpec doc fuel st rest options mname
            with ⟨r2, st1⟩
          cases r2 with
          | error e =>
            have he : resolveDependenciesSpec doc (fuel + 1) st
                (DepParam.pageElementContainerDep pec :: rest) options mname =
                (.error e, st1) := by
              simp only [resolveDependenciesSpec, hp, hr]
            rw [he] at h
            rw [Prod.mk.injEq] at h
            exact absurd h.1 (by simp)
          | ok vs' =>
            have he : resolveDependenciesSpec doc (fuel + 1) st
                (DepParam.pageElementContainerDep pec :: rest) options mname =
                (.ok (.elemsV m :: vs'), st1) := by
              simp only [resolveDependenciesSpec, hp, hr]
            rw [he] at h
            rw [Prod.mk.injEq] at h
            obtain ⟨h1, _⟩ := h
            injection h1 with h1
            subst h1
            obtain ⟨hlen, hlit, hsvc⟩ := ih st rest vs' st1 hr
            refine ⟨by simp [hlen], ?_, ?_⟩
            · intro i v hi
              cases i with
              | zero => simp at hi
              | succ i =>
                simp only [List.getElem?_cons_succ] at hi ⊢
                exact hlit i v hi
            · intro i sty hi
              cases i with
              | zero => simp at hi
              | succ i =>
                simp only [List.getElem?_cons_succ] at hi ⊢
                exact hsvc i sty hi
      | valueDep v =>
        rcases hr : resolveDependenciesSpec doc fuel st rest options mname
          with ⟨r2, st1⟩
        cases r2 with
        | error e =>
          have he : resolveDependenciesSpec doc (fuel + 1) st
              (DepParam.valueDep v :: rest) options mname = (.error e, st1) := by
            simp only [resolveDependenciesSpec, hr]
          rw [he] at h
          rw [Prod.mk.injEq] at h
          exact absurd h.1 (by simp)
        | ok vs' =>
          have he : resolveDependenciesSpec doc (fuel + 1) st
              (DepParam.valueDep v :: rest) options mname =
              (.ok (v :: vs'), st1) := by
            simp only [resolveDependenciesSpec, hr]
          rw [he] at h
          rw [Prod.mk.injEq] at h
          obtain ⟨h1, _⟩ := h
          injection h1 with h1
          subst h1
          obtain ⟨hlen, hlit, hsvc⟩ := ih st rest vs' st1 hr
          refine ⟨by simp [hlen], ?_, ?_⟩
          · intro i v0 hi
            cases i with
            | zero =>
              simp at hi
              subst hi
              simp
            | succ i =>
              simp only [List.getElem?_cons_succ] at hi ⊢
              exact hlit i v0 hi
          · intro i sty hi
            cases i with
            | zero => simp at hi
            | succ i =>
              simp only [List.getElem?_cons_succ] at hi ⊢
              exact hsvc i sty hi

/-- C2 (amended): for every registered unit, provided no Literal
declaration carries the value undefined, the resolver agrees with the
spec-side resolver that appends one argument per declaration in exactly
declaration order; consequently a successful resolution yields one argument
per declaration, every Literal contributes its carried value unchanged at
its own position, and every ServiceRef contributes the registered service
instance at its own position.  (A Literal carrying undefined is skipped —
see the counterexample.) -/
theorem c2_positional_fidelity (doc : List Dom) (fuel : Nat) (st : Hst)
    (params : List DepParam) (options : Option MediatorOptions)
    (mname : Option String) (h : noUndefLiteral params = true) :
    resolveDependencies doc fuel st params options mname =
      resolveDependenciesSpec doc fuel st params options mname ∧
    (∀ vs st',
      resolveDependencies doc fuel st params options mname = (.ok vs, st') →
      vs.length = params.length ∧
      (∀ (i : Nat) (v : Value), params[i]? = some (DepParam.valueDep v) →
        vs[i]? = some v) ∧
      (∀ (i : Nat) (sty : String), params[i]? = some (DepParam.serviceDep sty) →
        ∃ w, getServiceInstance st sty none = .ok w ∧
          vs[i]? = some (Value.instV w))) := by
  have hA := resolveDependencies_eq_spec doc options mname fuel st params h
  refine ⟨hA, ?_⟩
  intro vs st' hok
  rw [hA] at hok
  exact resolveDependenciesSpec_ok_shape doc options mname fuel st params vs st' hok

theorem c2_positional_fidelity_witness :
    noUndefLiteral paramsC2 = true ∧
    resolveDependencies [] 3 stWithS paramsC2 none none =
      resolveDependenciesSpec [] 3 stWithS paramsC2 none none :=
  ⟨by decide,
   (c2_positional_fidelity [] 3 stWithS paramsC2 none none (by decide)).1⟩

/-! ## Claim C4: marker-root selection -/

theorem discoverFromRoot_some_char (t : Dom) (dm : DiscoveredMediator)
    (h : discoverFromRoot t = some dm) :
    isHTMLElement t.nd = true ∧ getAttr t.nd MEDIATOR_ATTR = some dm.name ∧
    dm.name ≠ "" ∧ dm.qualifier = getAttr t.nd QUALIFIER_ATTR ∧
    dm.elements = rootElements t := by
  unfold discoverFromRoot at h
  split at h
  next hhtml =>
    split at h
    next => exact absurd h (by simp)
    next name heq =>
      split at h
      next => exact absurd h (by simp)
      next hne =>
        injection h with h
        subst h
        refine ⟨hhtml, heq, ?_, rfl, rfl⟩
        intro hcontra
        exact hne (beq_iff_eq.mpr hcontra)
  next => exact absurd h (by simp)

theorem discoverFromRoot_of_match (t : Dom) (name : String) (q : Option String)
    (hname : name ≠ "") (hmatch : mediatorRootMatch name q t.nd = true) :
    discoverFromRoot t =
      some ⟨name, getAttr t.nd QUALIFIER_ATTR, t.nd, rootElements t⟩ := by
  unfold mediatorRootMatch at hmatch
  rw [Bool.and_eq_true, Bool.and_eq_true] at hmatch
  obtain ⟨⟨hhtml, hattr⟩, _⟩ := hmatch
  have hattr' : getAttr t.nd MEDIATOR_ATTR = some name := beq_iff_eq.mp hattr
  have hne : (name == "") = false := beq_eq_false_iff_ne.mpr hname
  simp only [discoverFromRoot, hhtml, hattr', hne, if_true, if_false]
  simp

theorem findMediator_discoverList (name : String) (q : Option String)
    (hname : name ≠ "") :
    ∀ l : List Dom,
      findMediator ((l.filter (fun t => hasAttr t.nd MEDIATOR_ATTR)).filterMap
          discoverFromRoot) name q =
        (l.find? (fun t => mediatorRootMatch name q t.nd)).bind
          discoverFromRoot := by
  intro l
  induction l with
  | nil => rfl
  | cons t l' ih =>
    by_cases hmatch : mediatorRootMatch name q t.nd = true
    · have hdm := discoverFromRoot_of_match t name q hname hmatch
      have hhas : hasAttr t.nd MEDIATOR_ATTR = true := by
        unfold mediatorRootMatch at hmatch
        rw [Bool.and_eq_true, Bool.and_eq_true] at hmatch
        have := beq_iff_eq.mp hmatch.1.2
        simp [hasAttr, this]
      have hqual : (q == none || getAttr t.nd QUALIFIER_ATTR == q) = true := by
        unfold mediatorRootMatch at hmatch
        rw [Bool.and_eq_true, Bool.and_eq_true] at hmatch
        exact hmatch.2
      have hfc : List.filter (fun t => hasAttr t.nd MEDIATOR_ATTR) (t :: l') =
          t :: List.filter (fun t => hasAttr t.nd MEDIATOR_ATTR) l' := by
        simp [List.filter_cons, hhas]
      rw [hfc]
      rw [List.filterMap_cons, hdm]
      unfold findMediator
      simp only [List.find?_cons, hmatch]
      simp only [hqual]
      simp
      exact hdm.symm
    · have hm' : mediatorRootMatch name q t.nd = false := by
        simpa using hmatch
      by_cases hhas : hasAttr t.nd MEDIATOR_ATTR = true
      · have hfc : List.filter (fun t => hasAttr t.nd MEDIATOR_ATTR) (t :: l') =
            t :: List.filter (fun t => hasAttr t.nd MEDIATOR_ATTR) l' := by
          simp [List.filter_cons, hhas]
        rw [hfc]
        cases hd : discoverFromRoot t with
        | none =>
          rw [List.filterMap_cons, hd]
          simp only [List.find?_cons, hm']
          exact ih
        | some dm =>
          rw [List.filterMap_cons, hd]
          obtain ⟨hhtml, hattr, hne, hqualdm, _⟩ :=
            discoverFromRoot_some_char t dm hd
          have hpred : (dm.name == name &&
              (q == none || dm.qualifier == q)) = false := by
            by_contra hcontra
            rw [Bool.not_eq_false, Bool.and_eq_true] at hcontra
            obtain ⟨hn, hq⟩ := hcontra
            apply hmatch
            show mediatorRootMatch name q t.nd = true
            unfold mediatorRootMatch
            rw [Bool.and_eq_true, Bool.and_eq_true]
            refine ⟨⟨hhtml, ?_⟩, ?_⟩
            · rw [hattr]
              have := beq_iff_eq.mp hn
              simp [this]
            · rw [← hqualdm]
              exact hq
          unfold findMediator
          simp only [List.find?_cons, hpred]
          simp only [List.find?_cons, hm']
          exact ih
      · have hfc : List.filter (fun t => hasAttr t.nd MEDIATOR_ATTR) (t :: l') =
            List.filter (fun t => hasAttr t.nd MEDIATOR_ATTR) l' := by
          simp [List.filter_cons, hhas]
        rw [hfc]
        simp only [List.find?_cons, hm']
        exact ih

/-- C4 (amended): the attribute-discovery pass for a unit (type, qualifier)
scans the whole document and selects as marker root the FIRST node in
document (pre-order) order whose marker attribute value equals the type
name (and whose qualifier attribute matches when a qualifier was
requested) — not the nearest ancestor-or-self node; element entries are
collected from that root's descendants, plus the root itself when it
carries a non-empty element marker attribute whose property name no
descendant already supplied. -/
theorem c4_first_match_discovery (doc : List Dom) (name : String)
    (q : Option String) (hname : name ≠ "") :
    findMediator (discoverMediators doc) name q =
      ((subtreesF doc).find? (fun t => mediatorRootMatch name q t.nd)).bind
        discoverFromRoot :=
  findMediator_discoverList name q hname (subtreesF doc)

theorem c4_first_match_discovery_witness :
    ("ListPart" : String) ≠ "" ∧
    findMediator (discoverMediators [listTree]) ("ListPart") none =
      ((subtreesF [listTree]).find?
        (fun t => mediatorRootMatch ("ListPart") none t.nd)).bind
        discoverFromRoot :=
  ⟨by decide, c4_first_match_discovery [listTree] ("ListPart") none (by decide)⟩

/-- C4 counterexample: in a document whose outer node 0 and inner node 1
both carry the marker value M, with the marked element at node 2 inside
both, the discovery pass selects node 0 (the first marker in document
order), while the nearest ancestor-or-self marked node of the marked
element is node 1 — so the selected root is not the nearest
ancestor-or-self marked node. -/
theorem c4_counterexample :
    (findMediator (discoverMediators nestedDoc) ("M") none).map
      (fun dm => dm.rootElement.nid) = some 0 ∧
    (nearestMarkedAncestorOrSelf nestedDoc 2 ("M") none).map Nd.nid = some 1 ∧
    (some 0 : Option Nat) ≠ some 1 := by
  refine ⟨rfl, rfl, by decide⟩

/-! ## Claim C8: attribute-collection shape and order -/

theorem addElement_lookup_self (m : List (String × ElemRes)) (p : String)
    (e : Nd) :
    lookupA (addElement m p e) p =
      match lookupA m p with
      | none => some (.single e)
      | some (.single e0) => some (.coll [e0, e])
      | some (.coll es) => some (.coll (es ++ [e])) := by
  unfold addElement
  cases h : lookupA m p with
  | none =>
    rw [lookupA_append, h]
    simp [lookupA]
  | some r =>
    cases r with
    | single e0 => exact lookupA_setA_self _ _ _
    | coll es => exact lookupA_setA_self _ _ _

theorem addElement_lookup_ne (m : List (String × ElemRes)) (pe p : String)
    (e : Nd) (h : p ≠ pe) :
    lookupA (addElement m pe e) p = lookupA m p := by
  unfold addElement
  cases hm : lookupA m pe with
  | none =>
    rw [lookupA_append]
    cases hp : lookupA m p with
    | none =>
      have hne : ¬ pe = p := fun hh => h hh.symm
      simp [lookupA, hne]
    | some v => rfl
  | some r =>
    cases r with
    | single e0 => exact lookupA_setA_ne _ _ _ _ h
    | coll es => exact lookupA_setA_ne _ _ _ _ h

theorem combineOcc_coll :
    ∀ (es cs : List Nd), combineOcc (some (.coll cs)) es =
      some (.coll (cs ++ es)) := by
  intro es
  induction es with
  | nil =>
    intro cs
    simp [combineOcc]
  | cons e es ih =>
    intro cs
    rw [show combineOcc (some (.coll cs)) (e :: es) =
      combineOcc (some (.coll (cs ++ [e]))) es from rfl, ih]
    simp

theorem collectElements_foldl_lookup (p : String) (hp : p ≠ "") :
    ∀ (ns : List Nd) (m : List (String × ElemRes)),
      lookupA (ns.foldl collectStep m) p =
        combineOcc (lookupA m p)
          (ns.filter (fun e => isHTMLElement e &&
            (getAttr e ELEMENT_ATTR == some p))) := by
  intro ns
  induction ns with
  | nil =>
    intro m
    simp only [List.foldl_nil, List.filter_nil]
    cases h : lookupA m p with
    | none => rfl
    | some r => cases r <;> rfl
  | cons e ns' ih =>
    intro m
    show lookupA (ns'.foldl collectStep (collectStep m e)) p = _
    by_cases hhtml : isHTMLElement e = true
    · cases hatt : getAttr e ELEMENT_ATTR with
      | none =>
        have hstep : collectStep m e = m := by simp [collectStep, hhtml, hatt]
        have hpred : (isHTMLElement e &&
            (getAttr e ELEMENT_ATTR == some p)) = false := by
          simp [hatt]
        have hf : (e :: ns').filter (fun e => isHTMLElement e &&
            (getAttr e ELEMENT_ATTR == some p)) =
            ns'.filter (fun e => isHTMLElement e &&
            (getAttr e ELEMENT_ATTR == some p)) := by
          simp [List.filter_cons, hpred]
        rw [hstep, hf]
        exact ih m
      | some pe =>
        by_cases hpe : pe = ""
        · subst hpe
          have hstep : collectStep m e = m := by
            simp [collectStep, hhtml, hatt]
          have hbe : ((some "" : Option String) == some p) = false :=
            beq_eq_false_iff_ne.mpr (fun hh => hp (Option.some.inj hh).symm)
          have hpred : (isHTMLElement e &&
              (getAttr e ELEMENT_ATTR == some p)) = false := by
            rw [hatt, hbe]
            simp
          have hf : (e :: ns').filter (fun e => isHTMLElement e &&
              (getAttr e ELEMENT_ATTR == some p)) =
              ns'.filter (fun e => isHTMLElement e &&
              (getAttr e ELEMENT_ATTR == some p)) := by
            simp [List.filter_cons, hpred]
          rw [hstep, hf]
          exact ih m
        · by_cases hpep : pe = p
          · subst hpep
            have hne : (pe == "") = false := beq_eq_false_iff_ne.mpr hpe
            have hstep : collectStep m e = addElement m pe e := by
              simp [collectStep, hhtml, hatt, hne]
            have hpred : (isHTMLElement e &&
                (getAttr e ELEMENT_ATTR == some pe)) = true := by
              simp [hhtml, hatt]
            have hf : (e :: ns').filter (fun e => isHTMLElement e &&
                (getAttr e ELEMENT_ATTR == some pe)) =
                e :: ns'.filter (fun e => isHTMLElement e &&
                (getAttr e ELEMENT_ATTR == some pe)) := by
              simp [List.filter_cons, hpred]
            rw [hstep, hf, ih (addElement m pe e), addElement_lookup_self]
            cases hcur : lookupA m pe with
            | none => rfl
            | some r => cases r <;> rfl
          · have hbe : ((some pe : Option String) == some p) = false :=
              beq_eq_false_iff_ne.mpr (fun hh => hpep (Option.some.inj hh))
            have hne : (pe == "") = false := beq_eq_false_iff_ne.mpr hpe
            have hstep : collectStep m e = addElement m pe e := by
              simp [collectStep, hhtml, hatt, hne]
            have hpred : (isHTMLElement e &&
                (getAttr e ELEMENT_ATTR == some p)) = false := by
              rw [hatt, hbe]
              simp
            have hf : (e :: ns').filter (fun e => isHTMLElement e &&
                (getAttr e ELEMENT_ATTR == some p)) =
                ns'.filter (fun e => isHTMLElement e &&
                (getAttr e ELEMENT_ATTR == some p)) := by
              simp [List.filter_cons, hpred]
            rw [hstep, hf, ih (addElement m pe e),
              addElement_lookup_ne m pe p e (fun hh => hpep hh.symm)]
    · have hstep : collectStep m e = m := by simp [collectStep, hhtml]
      have hpred : (isHTMLElement e &&
          (getAttr e ELEMENT_ATTR == some p)) = false := by
        simp [Bool.and_eq_true, hhtml]
      have hf : (e :: ns').filter (fun e => isHTMLElement e &&
          (getAttr e ELEMENT_ATTR == some p)) =
          ns'.filter (fun e => isHTMLElement e &&
          (getAttr e ELEMENT_ATTR == some p)) := by
        simp [List.filter_cons, hpred]
      rw [hstep, hf]
      exact ih m

theorem rootElements_lookup_of_some (t : Dom) (p : String) (r : ElemRes)
    (h : lookupA (collectElements (descendantsWithAttr t ELEMENT_ATTR)) p =
      some r) :
    lookupA (rootElements t) p = some r := by
  unfold rootElements
  split
  next rp hra =>
    by_cases h1 : (rp == "") = true
    · rw [if_pos h1]
      exact h
    · rw [if_neg h1]
      by_cases h2 : (lookupA (collectElements
          (descendantsWithAttr t ELEMENT_ATTR)) rp).isSome = true
      · rw [if_pos h2]
        exact h
      · rw [if_neg h2]
        rw [lookupA_append, h]
  next => exact h

/-- C8: in attribute-based discovery, descendants sharing a property name
are collected into an ordered collection in document (pre-order) order,
while a property name occurring on exactly one descendant yields the single
element itself, not a one-element collection. -/
theorem c8_attribute_collection (t : Dom) (dm : DiscoveredMediator)
    (p : String) (hdm : discoverFromRoot t = some dm) (hp : p ≠ "") :
    (∀ e, elementOccurrences t p = [e] →
      lookupA dm.elements p = some (.single e)) ∧
    (∀ e1 e2 es, elementOccurrences t p = e1 :: e2 :: es →
      lookupA dm.elements p = some (.coll (e1 :: e2 :: es))) := by
  obtain ⟨_, _, _, _, helems⟩ := discoverFromRoot_some_char t dm hdm
  have hbase : lookupA (collectElements (descendantsWithAttr t ELEMENT_ATTR)) p =
      combineOcc none (elementOccurrences t p) :=
    collectElements_foldl_lookup p hp (descendantsWithAttr t ELEMENT_ATTR) []
  constructor
  · intro e hocc
    rw [helems]
    apply rootElements_lookup_of_some
    rw [hbase, hocc]
    rfl
  · intro e1 e2 es hocc
    rw [helems]
    apply rootElements_lookup_of_some
    rw [hbase, hocc]
    show combineOcc (some (.coll [e1, e2])) es = some (.coll (e1 :: e2 :: es))
    rw [combineOcc_coll]
    simp

theorem c8_attribute_collection_witness :
    discoverFromRoot listTree = some listDm ∧
    elementOccurrences listTree ("items") = [itemNdA, itemNdB] ∧
    elementOccurrences listTree ("title") = [titleNd] ∧
    lookupA listDm.elements ("items") = some (ElemRes.coll [itemNdA, itemNdB]) ∧
    lookupA listDm.elements ("title") = some (ElemRes.single titleNd) :=
  ⟨rfl, rfl, rfl,
   (c8_attribute_collection listTree listDm ("items") rfl (by decide)).2
     itemNdA itemNdB [] rfl,
   (c8_attribute_collection listTree listDm ("title") rfl (by decide)).1
     titleNd rfl⟩

/-! ## Claim C6: fail-fast element resolution -/

theorem assertElementType_error (el : Option ElemRes) (ty ctx m : String)
    (h : assertElementType el ty ctx = .error m) : msgNamesContext m ctx := by
  unfold assertElementType at h
  split at h
  next =>
    injection h with h
    exact Or.inl h.symm
  next es =>
    injection h with h
    exact Or.inr (Or.inl h.symm)
  next e =>
    split at h
    next => exact absurd h (by simp)
    next =>
      injection h with h
      exact Or.inr (Or.inr (Or.inl ⟨ty, e.ctorName, h.symm⟩))

theorem checkAllTypes_error :
    ∀ (array : List Nd) (ty ctx m : String),
      checkAllTypes array ty ctx = .error m →
      ∃ got, m = wrongTypeInCollMsg ctx ty got := by
  intro array
  induction array with
  | nil =>
    intro ty ctx m h
    exact absurd h (by simp [checkAllTypes])
  | cons e rest ih =>
    intro ty ctx m h
    unfold checkAllTypes at h
    split at h
    next => exact ih ty ctx m h
    next =>
      injection h with h
      exact ⟨e.ctorName, h.symm⟩

theorem assertElementTypes_error (el : Option ElemRes) (ty ctx m : String)
    (h : assertElementTypes el ty ctx = .error m) : msgNamesContext m ctx := by
  cases el with
  | none =>
    have hEq : assertElementTypes none ty ctx =
        .error (undefinedElementsMsg ctx) := rfl
    rw [hEq] at h
    injection h with h
    exact Or.inr (Or.inr (Or.inr (Or.inl h.symm)))
  | some r =>
    cases r with
    | single e =>
      cases hck : checkAllTypes [e] ty ctx with
      | ok u =>
        have hEq : assertElementTypes (some (.single e)) ty ctx = .ok [e] := by
          simp [assertElementTypes, hck]
        rw [hEq] at h
        exact absurd h (by simp)
      | error e0 =>
        have hEq : assertElementTypes (some (.single e)) ty ctx =
            .error e0 := by
          simp [assertElementTypes, hck]
        rw [hEq] at h
        injection h with h
        subst h
        obtain ⟨got, hgot⟩ := checkAllTypes_error _ ty ctx e0 hck
        exact Or.inr (Or.inr (Or.inr (Or.inr ⟨ty, got, hgot⟩)))
    | coll es =>
      cases hck : checkAllTypes es ty ctx with
      | ok u =>
        have hEq : assertElementTypes (some (.coll es)) ty ctx = .ok es := by
          simp [assertElementTypes, hck]
        rw [hEq] at h
        exact absurd h (by simp)
      | error e0 =>
        have hEq : assertElementTypes (some (.coll es)) ty ctx =
            .error e0 := by
          simp [assertElementTypes, hck]
        rw [hEq] at h
        injection h with h
        subst h
        obtain ⟨got, hgot⟩ := checkAllTypes_error _ ty ctx e0 hck
        exact Or.inr (Or.inr (Or.inr (Or.inr ⟨ty, got, hgot⟩)))

theorem validateEntries_error (resolved : List (String × Option ElemRes))
    (nm : String) :
    ∀ (defs : List (String × SchemaEntry)) (msg : String),
      validateEntries resolved nm defs = .error msg →
      ∃ p entry, (p, entry) ∈ defs ∧
        msgNamesContext msg (nm ++ "." ++ p) := by
  intro defs
  induction defs with
  | nil =>
    intro msg h
    exact absurd h (by simp [validateEntries])
  | cons pe rest ih =>
    intro msg h
    obtain ⟨p0, entry⟩ := pe
    by_cases hcoll : isElementCollection entry = true
    · cases ha : assertElementTypes (lookupResolved resolved p0)
          (getEntryType entry) (nm ++ "." ++ p0) with
      | error e0 =>
        have hEq : validateEntries resolved nm ((p0, entry) :: rest) =
            .error e0 := by
          simp [validateEntries, hcoll, ha, Except.map]
        rw [hEq] at h
        injection h with h
        subst h
        exact ⟨p0, entry, List.mem_cons_self _ _,
          assertElementTypes_error _ _ _ _ ha⟩
      | ok arr =>
        cases hr : validateEntries resolved nm rest with
        | error e1 =>
          have hEq : validateEntries resolved nm ((p0, entry) :: rest) =
              .error e1 := by
            simp [validateEntries, hcoll, ha, hr, Except.map]
          rw [hEq] at h
          injection h with h
          subst h
          obtain ⟨p, entry2, hmem, hmsg⟩ := ih _ hr
          exact ⟨p, entry2, List.mem_cons_of_mem _ hmem, hmsg⟩
        | ok rs =>
          have hEq : validateEntries resolved nm ((p0, entry) :: rest) =
              .ok ((p0, ElemRes.coll arr) :: rs) := by
            simp [validateEntries, hcoll, ha, hr, Except.map]
          rw [hEq] at h
          exact absurd h (by simp)
    · cases ha : assertElementType (lookupResolved resolved p0)
          (getEntryType entry) (nm ++ "." ++ p0) with
      | error e0 =>
        have hEq : validateEntries resolved nm ((p0, entry) :: rest) =
            .error e0 := by
          simp [validateEntries, hcoll, ha, Except.map]
        rw [hEq] at h
        injection h with h
        subst h
        exact ⟨p0, entry, List.mem_cons_self _ _,
          assertElementType_error _ _ _ _ ha⟩
      | ok el =>
        cases hr : validateEntries resolved nm rest with
        | error e1 =>
          have hEq : validateEntries resolved nm ((p0, entry) :: rest) =
              .error e1 := by
            simp [validateEntries, hcoll, ha, hr, Except.map]
          rw [hEq] at h
          injection h with h
          subst h
          obtain ⟨p, entry2, hmem, hmsg⟩ := ih _ hr
          exact ⟨p, entry2, List.mem_cons_of_mem _ hmem, hmsg⟩
        | ok rs =>
          have hEq : validateEntries resolved nm ((p0, entry) :: rest) =
              .ok ((p0, ElemRes.single el) :: rs) := by
            simp [validateEntries, hcoll, ha, hr, Except.map]
          rw [hEq] at h
          exact absurd h (by simp)

theorem validateEntries_ok_complete (resolved : List (String × Option ElemRes))
    (nm : String) :
    ∀ (defs : List (String × SchemaEntry)) (out : List (String × ElemRes)),
      validateEntries resolved nm defs = .ok out →
      ∀ pe ∈ defs, ∃ r, (pe.1, r) ∈ out := by
  intro defs
  induction defs with
  | nil =>
    intro out h pe hmem
    cases hmem
  | cons pe0 rest ih =>
    intro out h pe hmem
    obtain ⟨p0, entry⟩ := pe0
    by_cases hcoll : isElementCollection entry = true
    · cases ha : assertElementTypes (lookupResolved resolved p0)
          (getEntryType entry) (nm ++ "." ++ p0) with
      | error e0 =>
        have hEq : validateEntries resolved nm ((p0, entry) :: rest) =
            .error e0 := by
          simp [validateEntries, hcoll, ha, Except.map]
        rw [hEq] at h
        exact absurd h (by simp)
      | ok arr =>
        cases hr : validateEntries resolved nm rest with
        | error e1 =>
          have hEq : validateEntries resolved nm ((p0, entry) :: rest) =
              .error e1 := by
            simp [validateEntries, hcoll, ha, hr, Except.map]
          rw [hEq] at h
          exact absurd h (by simp)
        | ok rs =>
          have hEq : validateEntries resolved nm ((p0, entry) :: rest) =
              .ok ((p0, ElemRes.coll arr) :: rs) := by
            simp [validateEntries, hcoll, ha, hr, Except.map]
          rw [hEq] at h
          injection h with h
          subst h
          rcases List.mem_cons.mp hmem with h1 | h1
          · subst h1
            exact ⟨ElemRes.coll arr, List.mem_cons_self _ _⟩
          · obtain ⟨r, hrmem⟩ := ih rs hr pe h1
            exact ⟨r, List.mem_cons_of_mem _ hrmem⟩
    · cases ha : assertElementType (lookupResolved resolved p0)
          (getEntryType entry) (nm ++ "." ++ p0) with
      | error e0 =>
        have hEq : validateEntries resolved nm ((p0, entry) :: rest) =
            .error e0 := by
          simp [validateEntries, hcoll, ha, Except.map]
        rw [hEq] at h
        exact absurd h (by simp)
      | ok el =>
        cases hr : validateEntries resolved nm rest with
        | error e1 =>
          have hEq : validateEntries resolved nm ((p0, entry) :: rest) =
              .error e1 := by
            simp [validateEntries, hcoll, ha, hr, Except.map]
          rw [hEq] at h
          exact absurd h (by simp)
        | ok rs =>
          have hEq : validateEntries resolved nm ((p0, entry) :: rest) =
              .ok ((p0, ElemRes.single el) :: rs) := by
            simp [validateEntries, hcoll, ha, hr, Except.map]
          rw [hEq] at h
          injection h with h
          subst h
          rcases List.mem_cons.mp hmem with h1 | h1
          · subst h1
            exact ⟨ElemRes.single el, List.mem_cons_self _ _⟩
          · obtain ⟨r, hrmem⟩ := ih rs hr pe h1
            exact ⟨r, List.mem_cons_of_mem _ hrmem⟩

theorem resolveSelectorEntries_error (doc : List Dom) :
    ∀ (defs : List (String × SchemaEntry)) (p s ty e0 : String),
      (p, SchemaEntry.sel s ty) ∈ defs →
      getFirstElementBySelector doc s ty = .error e0 →
      ∃ e1, resolveSelectorEntries doc defs = .error e1 := by
  intro defs
  induction defs with
  | nil =>
    intro p s ty e0 hmem
    cases hmem
  | cons pe rest ih =>
    intro p s ty e0 hmem hq
    obtain ⟨p0, entry⟩ := pe
    rcases List.mem_cons.mp hmem with h1 | h1
    · injection h1 with h1a h1b
      subst h1a
      subst h1b
      refine ⟨e0, ?_⟩
      simp only [resolveSelectorEntries, hq]
    · cases entry with
      | sel s0 ty0 =>
        cases hg : getFirstElementBySelector doc s0 ty0 with
        | error e2 =>
          exact ⟨e2, by simp only [resolveSelectorEntries, hg]⟩
        | ok el =>
          obtain ⟨e1, he1⟩ := ih p s ty e0 h1 hq
          refine ⟨e1, ?_⟩
          simp only [resolveSelectorEntries, hg, he1]
      | selAll s0 ty0 =>
        cases hg : getAllElementsBySelector doc s0 ty0 with
        | error e2 =>
          exact ⟨e2, by simp only [resolveSelectorEntries, hg]⟩
        | ok els =>
          obtain ⟨e1, he1⟩ := ih p s ty e0 h1 hq
          refine ⟨e1, ?_⟩
          simp only [resolveSelectorEntries, hg, he1]
      | bare ty0 =>
        obtain ⟨e1, he1⟩ := ih p s ty e0 h1 hq
        refine ⟨e1, ?_⟩
        simp only [resolveSelectorEntries, he1]
      | coll ty0 =>
        obtain ⟨e1, he1⟩ := ih p s ty e0 h1 hq
        refine ⟨e1, ?_⟩
        simp only [resolveSelectorEntries, he1]

theorem resolveDependencies_pure_state (doc : List Dom)
    (options : Option MediatorOptions) (mname : Option String) :
    ∀ fuel st params,
      params.all (fun p => !(isMediatorDepParam p)) = true →
      (resolveDependencies doc fuel st params options mname).2 = st := by
  intro fuel
  induction fuel with
  | zero =>
    intro st params _
    rfl
  | succ fuel ih =>
    intro st params hall
    cases params with
    | nil => rfl
    | cons p rest =>
      rw [List.all_cons, Bool.and_eq_true] at hall
      obtain ⟨hp, hrest⟩ := hall
      cases p with
      | serviceDep sty =>
        cases hg : getServiceInstance st sty none with
        | error e => simp only [resolveDependencies, hg]
        | ok inst =>
          rcases hr : resolveDependencies doc fuel st rest options mname
            with ⟨r2, st1⟩
          have hst1 : st1 = st := by
            have := ih st rest hrest
            rw [hr] at this
            exact this
          cases r2 with
          | error e =>
            simp only [resolveDependencies, hg, hr]
            exact hst1
          | ok vs =>
            simp only [resolveDependencies, hg, hr]
            exact hst1
      | mediatorDep mty mopts => simp [isMediatorDepParam] at hp
      | elementSchemaDep schema =>
        cases hs : resolveElementsFromSchema doc schema mname
            (options.map (fun o => o.qualifier)) with
        | error e => simp only [resolveDependencies, hs]
        | ok resolved =>
          cases hv : validateElementsAgainstSchema resolved schema
              ((mname).getD ("Unknown")) with
          | error e => simp only [resolveDependencies, hs, hv]
          | ok validated =>
            rcases hr : resolveDependencies doc fuel st rest options mname
              with ⟨r2, st1⟩
            have hst1 : st1 = st := by
              have := ih st rest hrest
              rw [hr] at this
              exact this
            cases r2 with
            | error e =>
              simp only [resolveDependencies, hs, hv, hr]
              exact hst1
            | ok vs =>
              simp only [resolveDependencies, hs, hv, hr]
              exact hst1
      | pageElementContainerDep pec =>
        cases hpe : pageElements pec doc options with
        | error e => simp only [resolveDependencies, hpe]
        | ok m =>
          rcases hr : resolveDependencies doc fuel st rest options mname
            with ⟨r2, st1⟩
          have hst1 : st1 = st := by
            have := ih st rest hrest
            rw [hr] at this
            exact this
          cases r2 with
          | error e =>
            simp only [resolveDependencies, hpe, hr]
            exact hst1
          | ok vs =>
            simp only [resolveDependencies, hpe, hr]
            exact hst1
      | valueDep v =>
        rcases hr : resolveDependencies doc fuel st rest options mname
          with ⟨r2, st1⟩
        have hst1 : st1 = st := by
          have := ih st rest hrest
          rw [hr] at this
          exact this
        by_cases hv : (v == Value.undef) = true
        · simp only [resolveDependencies, hv, if_pos, hr]
          exact hst1
        · cases r2 with
          | error e =>
            simp only [resolveDependencies, hv, hr]
            simp [hst1]
          | ok vs =>
            simp only [resolveDependencies, hv, hr]
            simp [hst1]

theorem resolveDependencies_schema_error (doc : List Dom)
    (options : Option MediatorOptions) (name : String) :
    ∀ fuel st params sch e,
      DepParam.elementSchemaDep sch ∈ params →
      resolveAndValidate doc sch name (options.map (fun o => o.qualifier)) =
        .error e →
      ∃ e2, (resolveDependencies doc fuel st params options (some name)).1 =
        .error e2 := by
  intro fuel
  induction fuel with
  | zero =>
    intro st params sch e _ _
    exact ⟨outOfFuelMsg, rfl⟩
  | succ fuel ih =>
    intro st params sch e hmem herr
    cases params with
    | nil => cases hmem
    | cons p rest =>
      rcases List.mem_cons.mp hmem with h1 | h1
      · subst h1
        unfold resolveAndValidate at herr
        cases hs : resolveElementsFromSchema doc sch (some name)
            (options.map (fun o => o.qualifier)) with
        | error e0 =>
          refine ⟨e0, ?_⟩
          simp only [resolveDependencies, hs]
        | ok resolved =>
          rw [hs] at herr
          refine ⟨e, ?_⟩
          have hv : validateElementsAgainstSchema resolved sch
              (((some name : Option String)).getD ("Unknown")) = .error e := herr
          simp only [resolveDependencies, hs, hv]
      · cases p with
        | serviceDep sty =>
          cases hg : getServiceInstance st sty none with
          | error e0 =>
            refine ⟨e0, ?_⟩
            simp only [resolveDependencies, hg]
          | ok inst =>
            rcases hr : resolveDependencies doc fuel st rest options (some name)
              with ⟨r2, st1⟩
            obtain ⟨e2, he2⟩ := ih st rest sch e h1 herr
            rw [hr] at he2
            have hr2 : r2 = .error e2 := he2
            subst hr2
            refine ⟨e2, ?_⟩
            simp only [resolveDependencies, hg, hr]
        | mediatorDep mty mopts =>
          rcases hg : getMediatorInstance doc fuel st mty mopts with ⟨rg, st1⟩
          cases rg with
          | error e0 =>
            refine ⟨e0, ?_⟩
            simp only [resolveDependencies, hg]
          | ok inst =>
            rcases hr : resolveDependencies doc fuel st1 rest options (some name)
              with ⟨r2, st2⟩
            obtain ⟨e2, he2⟩ := ih st1 rest sch e h1 herr
            rw [hr] at he2
            have hr2 : r2 = .error e2 := he2
            subst hr2
            refine ⟨e2, ?_⟩
            simp only [resolveDependencies, hg, hr]
        | elementSchemaDep schema0 =>
          cases hs : resolveElementsFromSchema doc schema0 (some name)
              (options.map (fun o => o.qualifier)) with
          | error e0 =>
            refine ⟨e0, ?_⟩
            simp only [resolveDependencies, hs]
          | ok resolved =>
            cases hv : validateElementsAgainstSchema resolved schema0
                (((some name : Option String)).getD ("Unknown")) with
            | error e0 =>
              refine ⟨e0, ?_⟩
              simp only [resolveDependencies, hs, hv]
            | ok validated =>
              rcases hr : resolveDependencies doc fuel st rest options (some name)
                with ⟨r2, st1⟩
              obtain ⟨e2, he2⟩ := ih st rest sch e h1 herr
              rw [hr] at he2
              have hr2 : r2 = .error e2 := he2
              subst hr2
              refine ⟨e2, ?_⟩
              simp only [resolveDependencies, hs, hv, hr]
        | pageElementContainerDep pec =>
          cases hpe : pageElements pec doc options with
          | error e0 =>
            refine ⟨e0, ?_⟩
            simp only [resolveDependencies, hpe]
          | ok m =>
            rcases hr : resolveDependencies doc fuel st rest options (some name)
              with ⟨r2, st1⟩
            obtain ⟨e2, he2⟩ := ih st rest sch e h1 herr
            rw [hr] at he2
            have hr2 : r2 = .error e2 := he2
            subst hr2
            refine ⟨e2, ?_⟩
            simp only [resolveDependencies, hpe, hr]
        | valueDep v =>
          rcases hr : resolveDependencies doc fuel st rest options (some name)
            with ⟨r2, st1⟩
          obtain ⟨e2, he2⟩ := ih st rest sch e h1 herr
          rw [hr] at he2
          have hr2 : r2 = .error e2 := he2
          subst hr2
          by_cases hv : (v == Value.undef) = true
          · refine ⟨e2, ?_⟩
            simp only [resolveDependencies, hv, if_pos, hr]
          · refine ⟨e2, ?_⟩
            simp only [resolveDependencies, hv, hr]
            simp

/-- C6: element resolution fails fast.  (a) Any schema entry that
validates to an undefined, array-shaped, or mistyped element makes
validateElementsAgainstSchema throw a descriptive error naming the
offending property and the owning unit (unit dot property) through one of
the five assertion message templates; (b) when validation succeeds, every
schema entry is present in the validated output, so resolution never
silently substitutes undefined; (c) a selector-based single entry whose
selector matches no node (or a mistyped node) makes the whole
resolveElementsFromSchema pass throw; (d) when the resolve-and-validate
pipeline of an element-schema dependency fails, constructMediator for a
not-yet-memoized key returns the error without executing the unit's
constructor: with no mediator dependencies among the declarations the
container state is returned exactly as it was, so no partially
constructed unit is observable. -/
theorem c6_fail_fast :
    (∀ (resolved : List (String × Option ElemRes)) (schema : ElementSchema)
        (nm msg : String),
        validateElementsAgainstSchema resolved schema nm = .error msg →
        ∃ p entry, (p, entry) ∈ schema.definition ∧
          msgNamesContext msg (nm ++ "." ++ p)) ∧
    (∀ (resolved : List (String × Option ElemRes)) (schema : ElementSchema)
        (nm : String) (out : List (String × ElemRes)),
        validateElementsAgainstSchema resolved schema nm = .ok out →
        ∀ pe ∈ schema.definition, ∃ r, (pe.1, r) ∈ out) ∧
    (∀ (doc : List Dom) (schema : ElementSchema) (mname q : Option String)
        (p s ty e0 : String),
        (p, SchemaEntry.sel s ty) ∈ schema.definition →
        getFirstElementBySelector doc s ty = .error e0 →
        ∃ e1, resolveElementsFromSchema doc schema mname q = .error e1) ∧
    (∀ (doc : List Dom) (fuel : Nat) (st : Hst) (name : String)
        (params : List DepParam) (options : Option MediatorOptions)
        (sch : ElementSchema) (e : String),
        lookupA st.mediators (mediatorKey name options) = none →
        DepParam.elementSchemaDep sch ∈ params →
        resolveAndValidate doc sch name (options.map (fun o => o.qualifier)) =
          .error e →
        (∃ e2, (constructMediator doc fuel st name params options).1 =
          .error e2) ∧
        (params.all (fun p => !(isMediatorDepParam p)) = true →
          (constructMediator doc fuel st name params options).2 = st)) := by
  refine ⟨?_, ?_, ?_, ?_⟩
  · intro resolved schema nm msg h
    exact validateEntries_error resolved nm schema.definition msg h
  · intro resolved schema nm out h pe hmem
    exact validateEntries_ok_complete resolved nm schema.definition out h pe hmem
  · intro doc schema mname q p s ty e0 hmem hq
    obtain ⟨e1, he1⟩ :=
      resolveSelectorEntries_error doc schema.definition p s ty e0 hmem hq
    refine ⟨e1, ?_⟩
    simp only [resolveElementsFromSchema, he1]
  · intro doc fuel st name params options sch e hmemo hmem herr
    cases fuel with
    | zero => exact ⟨⟨outOfFuelMsg, rfl⟩, fun _ => rfl⟩
    | succ fuel2 =>
      obtain ⟨e2, he2⟩ :=
        resolveDependencies_schema_error doc options name fuel2 st params sch e
          hmem herr
      rcases hr : resolveDependencies doc fuel2 st params options (some name)
        with ⟨r1, st1⟩
      rw [hr] at he2
      have hr1 : r1 = .error e2 := he2
      subst hr1
      have hEq : constructMediator doc (fuel2 + 1) st name params options =
          (.error e2, st1) := by
        simp only [constructMediator, hmemo, hr]
      constructor
      · exact ⟨e2, by rw [hEq]⟩
      · intro hall
        have hst1 : st1 = st := by
          have hps :=
            resolveDependencies_pure_state doc options (some name) fuel2 st
              params hall
          rw [hr] at hps
          exact hps
        rw [hEq]
        exact hst1

theorem c6_fail_fast_witness :
    (∃ p entry, (p, entry) ∈ schemaTitleBare.definition ∧
        msgNamesContext (undefinedElementMsg ("M" ++ "." ++ "title"))
          ("M" ++ "." ++ p)) ∧
    (∀ pe ∈ schemaTitleBare.definition,
        ∃ r, (pe.1, r) ∈ [(("title" : String), ElemRes.single titleNd)]) ∧
    (∃ e1, resolveElementsFromSchema [] schemaHdrSel (some ("M")) none =
        .error e1) ∧
    (∃ e2, (constructMediator [] 3 emptyHst ("M")
        [DepParam.elementSchemaDep schemaTitleBare] none).1 = .error e2) ∧
    (constructMediator [] 3 emptyHst ("M")
        [DepParam.elementSchemaDep schemaTitleBare] none).2 = emptyHst := by
  refine ⟨?_, ?_, ?_, ?_, ?_⟩
  · exact c6_fail_fast.1 [] schemaTitleBare ("M")
      (undefinedElementMsg ("M" ++ "." ++ "title")) rfl
  · exact c6_fail_fast.2.1 [(("title" : String), some (ElemRes.single titleNd))]
      schemaTitleBare ("M") [(("title" : String), ElemRes.single titleNd)] rfl
  · exact c6_fail_fast.2.2.1 [] schemaHdrSel (some ("M")) none ("hdr") ("h1")
      ("HTMLHeadingElement") (selectorErrMsg ("h1") ("HTMLHeadingElement")
        ("null")) (by simp [schemaHdrSel]) rfl
  · exact (c6_fail_fast.2.2.2 [] 3 emptyHst ("M")
      [DepParam.elementSchemaDep schemaTitleBare] none schemaTitleBare
      (mediatorNotFoundMsg ("M") none) rfl (List.mem_cons_self _ _) rfl).1
  · exact (c6_fail_fast.2.2.2 [] 3 emptyHst ("M")
      [DepParam.elementSchemaDep schemaTitleBare] none schemaTitleBare
      (mediatorNotFoundMsg ("M") none) rfl (List.mem_cons_self _ _) rfl).2 rfl

/-! ## Claim C7: boot catches everything and never rolls back -/

theorem constructService_error_state (st st1 : Hst) (n : String)
    (ps : List SParam) (e : String)
    (h : constructService st n ps = (.error e, st1)) : st1 = st := by
  unfold constructService at h
  split at h
  next inst0 hm => exact absurd h (by simp)
  next hm =>
    split at h
    next e0 hmap =>
      injection h with ha hb
      exact hb.symm
    next deps hmap => exact absurd h (by simp)

theorem constructService_ok_char (st st1 : Hst) (n : String)
    (ps : List SParam) (inst : Inst)
    (h : constructService st n ps = (.ok inst, st1)) :
    st1.mediators = st.mediators ∧ st1.pageControllers = st.pageControllers ∧
    (∀ k v, lookupA st.services k = some v →
      lookupA st1.services k = some v) ∧
    lookupA st1.services n = some inst := by
  unfold constructService at h
  split at h
  next inst0 hm =>
    injection h with ha hb
    injection ha with ha
    subst hb
    subst ha
    exact ⟨rfl, rfl, fun k v hv => hv, hm⟩
  next hm =>
    split at h
    next e0 hmap => exact absurd h (by simp)
    next deps hmap =>
      injection h with ha hb
      injection ha with ha
      subst hb
      refine ⟨rfl, rfl, ?_, ?_⟩
      · intro k v hv
        show lookupA (setA st.services n ⟨n, st.nextId⟩) k = some v
        by_cases hk : k = n
        · subst hk
          rw [hm] at hv
          exact absurd hv (by simp)
        · rw [lookupA_setA_ne st.services n k _ hk]
          exact hv
      · show lookupA (setA st.services n ⟨n, st.nextId⟩) n = some inst
        rw [lookupA_setA_self]
        exact congrArg some ha

theorem constructAllServices_preserves :
    ∀ (defs : List (String × List SParam)) (st : Hst),
      (constructAllServices st defs).2.mediators = st.mediators ∧
      (constructAllServices st defs).2.pageControllers = st.pageControllers ∧
      (∀ k v, lookupA st.services k = some v →
        lookupA (constructAllServices st defs).2.services k = some v) := by
  intro defs
  induction defs with
  | nil =>
    intro st
    exact ⟨rfl, rfl, fun k v hv => hv⟩
  | cons pe rest ih =>
    intro st
    obtain ⟨n, ps⟩ := pe
    rcases hc : constructService st n ps with ⟨r1, st1⟩
    cases r1 with
    | error e =>
      have hst1 : st1 = st := constructService_error_state st st1 n ps e hc
      have hEq : constructAllServices st ((n, ps) :: rest) = (.error e, st1) := by
        simp only [constructAllServices, hc]
      rw [hEq, hst1]
      exact ⟨rfl, rfl, fun k v hv => hv⟩
    | ok inst =>
      obtain ⟨hmed, hpc, hsv, hself⟩ :=
        constructService_ok_char st st1 n ps inst hc
      have hEq : constructAllServices st ((n, ps) :: rest) =
          constructAllServices
            { st1 with services := setA st1.services n inst } rest := by
        simp only [constructAllServices, hc]
      obtain ⟨ihm, ihp, ihs⟩ :=
        ih { st1 with services := setA st1.services n inst }
      refine ⟨?_, ?_, ?_⟩
      · rw [hEq, ihm]
        exact hmed
      · rw [hEq, ihp]
        exact hpc
      · intro k v hv
        rw [hEq]
        apply ihs
        show lookupA (setA st1.services n inst) k = some v
        have hv1 := hsv k v hv
        by_cases hk : k = n
        · subst hk
          rw [hself] at hv1
          injection hv1 with hv1
          rw [lookupA_setA_self]
          exact congrArg some hv1
        · rw [lookupA_setA_ne st1.services n k inst hk]
          exact hv1

theorem constructPageController_char (doc : List Dom) (fuel : Nat)
    (st st1 : Hst) (name : String) (params : List DepParam)
    (r : Except String Inst)
    (h : constructPageController doc fuel st name params = (r, st1)) :
    st1.services = st.services ∧
    (∀ k v, lookupA st.mediators k = some v →
      lookupA st1.mediators k = some v) ∧
    (∀ k v, lookupA st.pageControllers k = some v →
      lookupA st1.pageControllers k = some v) ∧
    (∀ inst, r = .ok inst → lookupA st1.pageControllers name = some inst) := by
  unfold constructPageController at h
  split at h
  next inst0 hm =>
    injection h with ha hb
    subst hb
    subst ha
    refine ⟨rfl, fun k v hv => hv, fun k v hv => hv, ?_⟩
    intro inst hr
    injection hr with hr
    rw [← hr]
    exact hm
  next hm =>
    split at h
    next e st2 hres =>
      injection h with ha hb
      subst hb
      subst ha
      have hev := (evolve_all fuel).2.2 doc st params none none
      rw [hres] at hev
      refine ⟨hev.svcs, hev.medMono, ?_, ?_⟩
      · intro k v hv
        rw [hev.pcs]
        exact hv
      · intro inst hr
        exact absurd hr (by simp)
    next deps st2 hres =>
      injection h with ha hb
      subst hb
      subst ha
      have hev := (evolve_all fuel).2.2 doc st params none none
      rw [hres] at hev
      have hnone : lookupA st2.pageControllers name = none := by
        rw [hev.pcs]
        exact hm
      refine ⟨hev.svcs, hev.medMono, ?_, ?_⟩
      · intro k v hv
        show lookupA (setA st2.pageControllers name ⟨name, st2.nextId⟩) k =
          some v
        have hv2 : lookupA st2.pageControllers k = some v := by
          rw [hev.pcs]
          exact hv
        by_cases hk : k = name
        · subst hk
          rw [hnone] at hv2
          exact absurd hv2 (by simp)
        · rw [lookupA_setA_ne st2.pageControllers name k _ hk]
          exact hv2
      · intro inst hr
        injection hr with hr
        show lookupA (setA st2.pageControllers name ⟨name, st2.nextId⟩) name =
          some inst
        rw [lookupA_setA_self]
        exact congrArg some hr

theorem constructAllPageControllers_preserves (doc : List Dom) (fuel : Nat) :
    ∀ (defs : List (String × List DepParam)) (st : Hst),
      (constructAllPageControllers doc fuel st defs).2.services =
        st.services ∧
      (∀ k v, lookupA st.mediators k = some v →
        lookupA (constructAllPageControllers doc fuel st defs).2.mediators k =
          some v) ∧
      (∀ k v, lookupA st.pageControllers k = some v →
        lookupA
          (constructAllPageControllers doc fuel st defs).2.pageControllers k =
          some v) := by
  intro defs
  induction defs with
  | nil =>
    intro st
    exact ⟨rfl, fun k v hv => hv, fun k v hv => hv⟩
  | cons pe rest ih =>
    intro st
    obtain ⟨n, ps⟩ := pe
    rcases hc : constructPageController doc fuel st n ps with ⟨r1, st1⟩
    obtain ⟨hsv, hmed, hpc, hself⟩ :=
      constructPageController_char doc fuel st st1 n ps r1 hc
    cases r1 with
    | error e =>
      have hEq : constructAllPageControllers doc fuel st ((n, ps) :: rest) =
          (.error e, st1) := by
        simp only [constructAllPageControllers, hc]
      rw [hEq]
      exact ⟨hsv, hmed, hpc⟩
    | ok inst =>
      have hself1 := hself inst rfl
      have hEq : constructAllPageControllers doc fuel st ((n, ps) :: rest) =
          constructAllPageControllers doc fuel
            { st1 with pageControllers := setA st1.pageControllers n inst }
            rest := by
        simp only [constructAllPageControllers, hc]
      obtain ⟨ihs, ihm, ihp⟩ :=
        ih { st1 with pageControllers := setA st1.pageControllers n inst }
      refine ⟨?_, ?_, ?_⟩
      · rw [hEq, ihs]
        exact hsv
      · intro k v hv
        rw [hEq]
        exact ihm k v (hmed k v hv)
      · intro k v hv
        rw [hEq]
        apply ihp
        show lookupA (setA st1.pageControllers n inst) k = some v
        have hv1 := hpc k v hv
        by_cases hk : k = n
        · subst hk
          rw [hself1] at hv1
          injection hv1 with hv1
          rw [lookupA_setA_self]
          exact congrArg some hv1
        · rw [lookupA_setA_ne st1.pageControllers n k inst hk]
          exact hv1

theorem registryPresRefl (st : Hst) : RegistryPres st st :=
  ⟨fun _ _ hv => hv, fun _ _ hv => hv, fun _ _ hv => hv⟩

theorem registryPresTrans {s1 s2 s3 : Hst} (a : RegistryPres s1 s2)
    (b : RegistryPres s2 s3) : RegistryPres s1 s3 :=
  ⟨fun k v hv => b.1 k v (a.1 k v hv),
   fun k v hv => b.2.1 k v (a.2.1 k v hv),
   fun k v hv => b.2.2 k v (a.2.2 k v hv)⟩

theorem constructService_step_pres (st st1 : Hst) (n : String)
    (ps : List SParam) (inst : Inst)
    (h : constructService st n ps = (.ok inst, st1)) :
    RegistryPres st { st1 with services := setA st1.services n inst } := by
  obtain ⟨hmed, hpc, hsv, hself⟩ := constructService_ok_char st st1 n ps inst h
  refine ⟨?_, ?_, ?_⟩
  · intro k v hv
    show lookupA (setA st1.services n inst) k = some v
    have hv1 := hsv k v hv
    by_cases hk : k = n
    · subst hk
      rw [hself] at hv1
      injection hv1 with hv1
      rw [lookupA_setA_self]
      exact congrArg some hv1
    · rw [lookupA_setA_ne st1.services n k inst hk]
      exact hv1
  · intro k v hv
    show lookupA st1.mediators k = some v
    rw [hmed]
    exact hv
  · intro k v hv
    show lookupA st1.pageControllers k = some v
    rw [hpc]
    exact hv

theorem constructPageController_step_pres (doc : List Dom) (fuel : Nat)
    (st st1 : Hst) (name : String) (params : List DepParam) (inst : Inst)
    (h : constructPageController doc fuel st name params = (.ok inst, st1)) :
    RegistryPres st
      { st1 with pageControllers := setA st1.pageControllers name inst } := by
  obtain ⟨hsv, hmed, hpc, hself⟩ :=
    constructPageController_char doc fuel st st1 name params (.ok inst) h
  have hself1 := hself inst rfl
  refine ⟨?_, ?_, ?_⟩
  · intro k v hv
    show lookupA st1.services k = some v
    rw [hsv]
    exact hv
  · intro k v hv
    exact hmed k v hv
  · intro k v hv
    show lookupA (setA st1.pageControllers name inst) k = some v
    have hv1 := hpc k v hv
    by_cases hk : k = name
    · subst hk
      rw [hself1] at hv1
      injection hv1 with hv1
      rw [lookupA_setA_self]
      exact congrArg some hv1
    · rw [lookupA_setA_ne st1.pageControllers name k inst hk]
      exact hv1

theorem constructAllServicesTrace_pres :
    ∀ (defs : List (String × List SParam)) (st stm : Hst),
      stm ∈ constructAllServicesTrace st defs →
      RegistryPres stm (constructAllServices st defs).2 := by
  intro defs
  induction defs with
  | nil =>
    intro st stm hm
    have htr : constructAllServicesTrace st [] = [st] := rfl
    rw [htr] at hm
    have hm1 : stm = st := by simpa using hm
    subst hm1
    exact registryPresRefl stm
  | cons pe rest ih =>
    intro st stm hm
    obtain ⟨n, ps⟩ := pe
    rcases hc : constructService st n ps with ⟨r1, st1⟩
    cases r1 with
    | error e =>
      have hst1 : st1 = st := constructService_error_state st st1 n ps e hc
      have htr : constructAllServicesTrace st ((n, ps) :: rest) =
          [st, st1] := by
        simp only [constructAllServicesTrace, hc]
      have hres : constructAllServices st ((n, ps) :: rest) =
          (.error e, st1) := by
        simp only [constructAllServices, hc]
      rw [htr] at hm
      rw [hres]
      rcases List.mem_cons.mp hm with h1 | h1
      · subst h1
        rw [hst1]
        exact registryPresRefl stm
      · rcases List.mem_cons.mp h1 with h2 | h2
        · subst h2
          exact registryPresRefl stm
        · cases h2
    | ok inst =>
      have htr : constructAllServicesTrace st ((n, ps) :: rest) =
          st :: constructAllServicesTrace
            { st1 with services := setA st1.services n inst } rest := by
        simp only [constructAllServicesTrace, hc]
      have hres : constructAllServices st ((n, ps) :: rest) =
          constructAllServices
            { st1 with services := setA st1.services n inst } rest := by
        simp only [constructAllServices, hc]
      rw [htr] at hm
      rw [hres]
      rcases List.mem_cons.mp hm with h1 | h1
      · rw [h1]
        refine registryPresTrans
          (constructService_step_pres st st1 n ps inst hc) ?_
        obtain ⟨hm2, hp2, hs2⟩ := constructAllServices_preserves rest
          { st1 with services := setA st1.services n inst }
        exact ⟨hs2, fun k v hv => by rw [hm2]; exact hv,
          fun k v hv => by rw [hp2]; exact hv⟩
      · exact ih { st1 with services := setA st1.services n inst } stm h1

theorem constructAllPageControllersTrace_pres (doc : List Dom) (fuel : Nat) :
    ∀ (defs : List (String × List DepParam)) (st stm : Hst),
      stm ∈ constructAllPageControllersTrace doc fuel st defs →
      RegistryPres stm (constructAllPageControllers doc fuel st defs).2 := by
  intro defs
  induction defs with
  | nil =>
    intro st stm hm
    have htr : constructAllPageControllersTrace doc fuel st [] = [st] := rfl
    rw [htr] at hm
    have hm1 : stm = st := by simpa using hm
    subst hm1
    exact registryPresRefl stm
  | cons pe rest ih =>
    intro st stm hm
    obtain ⟨n, ps⟩ := pe
    rcases hc : constructPageController doc fuel st n ps with ⟨r1, st1⟩
    cases r1 with
    | error e =>
      obtain ⟨hsv, hmed, hpc, _⟩ :=
        constructPageController_char doc fuel st st1 n ps (.error e) hc
      have htr : constructAllPageControllersTrace doc fuel st
          ((n, ps) :: rest) = [st, st1] := by
        simp only [constructAllPageControllersTrace, hc]
      have hres : constructAllPageControllers doc fuel st ((n, ps) :: rest) =
          (.error e, st1) := by
        simp only [constructAllPageControllers, hc]
      rw [htr] at hm
      rw [hres]
      rcases List.mem_cons.mp hm with h1 | h1
      · subst h1
        exact ⟨fun k v hv => by rw [hsv]; exact hv, hmed, hpc⟩
      · rcases List.mem_cons.mp h1 with h2 | h2
        · subst h2
          exact registryPresRefl stm
        · cases h2
    | ok inst =>
      have htr : constructAllPageControllersTrace doc fuel st
          ((n, ps) :: rest) =
          st :: constructAllPageControllersTrace doc fuel
            { st1 with pageControllers := setA st1.pageControllers n inst }
            rest := by
        simp only [constructAllPageControllersTrace, hc]
      have hres : constructAllPageControllers doc fuel st ((n, ps) :: rest) =
          constructAllPageControllers doc fuel
            { st1 with pageControllers := setA st1.pageControllers n inst }
            rest := by
        simp only [constructAllPageControllers, hc]
      rw [htr] at hm
      rw [hres]
      rcases List.mem_cons.mp hm with h1 | h1
      · rw [h1]
        refine registryPresTrans
          (constructPageController_step_pres doc fuel st st1 n ps inst hc) ?_
        obtain ⟨hs2, hm2, hp2⟩ := constructAllPageControllers_preserves doc
          fuel rest
          { st1 with pageControllers := setA st1.pageControllers n inst }
        exact ⟨fun k v hv => by rw [hs2]; exact hv, hm2, hp2⟩
      · exact ih
          { st1 with pageControllers := setA st1.pageControllers n inst }
          stm h1

theorem self_mem_servTrace (st : Hst) (defs : List (String × List SParam)) :
    st ∈ constructAllServicesTrace st defs := by
  cases defs with
  | nil => exact List.mem_cons_self _ _
  | cons pe rest =>
    obtain ⟨n, ps⟩ := pe
    rcases hc : constructService st n ps with ⟨r1, st1⟩
    cases r1 with
    | error e =>
      have htr : constructAllServicesTrace st ((n, ps) :: rest) =
          [st, st1] := by
        simp only [constructAllServicesTrace, hc]
      rw [htr]
      exact List.mem_cons_self _ _
    | ok inst =>
      have htr : constructAllServicesTrace st ((n, ps) :: rest) =
          st :: constructAllServicesTrace
            { st1 with services := setA st1.services n inst } rest := by
        simp only [constructAllServicesTrace, hc]
      rw [htr]
      exact List.mem_cons_self _ _

theorem self_mem_bootTrace (doc : List Dom) (fuel : Nat) (st : Hst) :
    st ∈ bootTrace doc fuel st := by
  rcases h1 : constructAllServices st st.serviceDefinitions with ⟨r1, st1⟩
  cases r1 with
  | error e =>
    have hbt : bootTrace doc fuel st =
        constructAllServicesTrace st st.serviceDefinitions := by
      simp only [bootTrace, h1]
    rw [hbt]
    exact self_mem_servTrace st st.serviceDefinitions
  | ok u =>
    have hbt : bootTrace doc fuel st =
        constructAllServicesTrace st st.serviceDefinitions ++
          constructAllPageControllersTrace doc fuel st1
            st1.pageControllerDefinitions := by
      simp only [bootTrace, h1]
    rw [hbt]
    exact List.mem_append_left _ (self_mem_servTrace st st.serviceDefinitions)

/-- C7: the boot sequence never propagates an exception to its caller and
never rolls back instances constructed before the failure.  In the
embedding, the single top-level try/catch of boot is the total return type
Hst × Option String: every exception raised by a construction phase or by
a rejected lifecycle wave comes back as the logged message of the pair
instead of escaping, so boot always returns a (state, log) pair.  And for
every intermediate container state the boot run passes through — bootTrace
lists them all: the state before each service or page-controller
construction and the state in which a throwing construction stopped the
walk, the latter including every mediator built while resolving the
thrower's dependencies — each service, mediator, and page-controller
instance registered at that moment is still registered unchanged in the
returned state, whether boot succeeded or logged an error.  The input
state heads the trace, so pre-existing instances are preserved as the
special case of the first trace element. -/
theorem c7_boot_catches_no_rollback (doc : List Dom) (fuel : Nat)
    (hasLoad loadOk : Inst → Bool) (st : Hst) :
    ∃ st' log, boot doc fuel hasLoad loadOk st = (st', log) ∧
      RegistryPres st st' ∧
      ∀ stm ∈ bootTrace doc fuel st, RegistryPres stm st' := by
  rcases h1 : constructAllServices st st.serviceDefinitions with ⟨r1, st1⟩
  cases r1 with
  | error e =>
    have hbt : bootTrace doc fuel st =
        constructAllServicesTrace st st.serviceDefinitions := by
      simp only [bootTrace, h1]
    have hall : ∀ stm ∈ bootTrace doc fuel st, RegistryPres stm st1 := by
      intro stm hm
      rw [hbt] at hm
      have hps := constructAllServicesTrace_pres st.serviceDefinitions st
        stm hm
      rw [h1] at hps
      exact hps
    refine ⟨st1, some e, ?_, hall st (self_mem_bootTrace doc fuel st), hall⟩
    simp only [boot, h1]
  | ok u =>
    rcases h2 : constructAllPageControllers doc fuel st1
        st1.pageControllerDefinitions with ⟨r2, st2⟩
    have hbt : bootTrace doc fuel st =
        constructAllServicesTrace st st.serviceDefinitions ++
          constructAllPageControllersTrace doc fuel st1
            st1.pageControllerDefinitions := by
      simp only [bootTrace, h1]
    have hp2 := constructAllPageControllers_preserves doc fuel
      st1.pageControllerDefinitions st1
    rw [h2] at hp2
    obtain ⟨hs2, hm2, hpc2⟩ := hp2
    have hR12 : RegistryPres st1 st2 :=
      ⟨fun k v hv => by rw [hs2]; exact hv, hm2, hpc2⟩
    have hall2 : ∀ stm ∈ bootTrace doc fuel st, RegistryPres stm st2 := by
      intro stm hm
      rw [hbt] at hm
      rcases List.mem_append.mp hm with hA | hB
      · have hps := constructAllServicesTrace_pres st.serviceDefinitions st
          stm hA
        rw [h1] at hps
        exact registryPresTrans hps hR12
      · have hps := constructAllPageControllersTrace_pres doc fuel
          st1.pageControllerDefinitions st1 stm hB
        rw [h2] at hps
        exact hps
    cases r2 with
    | error e =>
      refine ⟨st2, some e, ?_, hall2 st (self_mem_bootTrace doc fuel st),
        hall2⟩
      simp only [boot, h1, h2]
    | ok u2 =>
      by_cases hA : (st2.services.all (fun p => !hasLoad p.2 || loadOk p.2)) =
          true
      · by_cases hB : (st2.mediators.all (fun p => loadOk p.2)) = true
        · by_cases hC : (st2.pageControllers.all (fun p => loadOk p.2)) = true
          · have hclear : RegistryPres st2
                { st2 with
                  serviceDefinitions := [],
                  pageControllerDefinitions := [],
                  mediatorDefinitions := [] } :=
              ⟨fun _ _ hv => hv, fun _ _ hv => hv, fun _ _ hv => hv⟩
            refine ⟨{ st2 with
                serviceDefinitions := [],
                pageControllerDefinitions := [],
                mediatorDefinitions := [] }, none, ?_,
              registryPresTrans
                (hall2 st (self_mem_bootTrace doc fuel st)) hclear,
              fun stm hm => registryPresTrans (hall2 stm hm) hclear⟩
            simp only [boot, h1, h2]
            rw [if_pos hA, if_pos hB, if_pos hC]
          · refine ⟨st2, some ("Error during load time"), ?_,
              hall2 st (self_mem_bootTrace doc fuel st), hall2⟩
            simp only [boot, h1, h2]
            rw [if_pos hA, if_pos hB, if_neg hC]
        · refine ⟨st2, some ("Error during load time"), ?_,
            hall2 st (self_mem_bootTrace doc fuel st), hall2⟩
          simp only [boot, h1, h2]
          rw [if_pos hA, if_neg hB]
      · refine ⟨st2, some ("Error during load time"), ?_,
          hall2 st (self_mem_bootTrace doc fuel st), hall2⟩
        simp only [boot, h1, h2]
        rw [if_neg hA]

theorem c7_boot_catches_no_rollback_witness :
    lookupA stBootSB.services ("S") = none ∧
    lookupA stAfterS.services ("S") = some ⟨"S", 0⟩ ∧
    (boot [] 4 (fun _ => false) (fun _ => true) stBootSB).2.isSome = true ∧
    lookupA (boot [] 4 (fun _ => false) (fun _ => true) stBootSB).1.services
      ("S") = some ⟨"S", 0⟩ := by
  obtain ⟨st', log, hb, hin, hall⟩ :=
    c7_boot_catches_no_rollback [] 4 (fun _ => false) (fun _ => true) stBootSB
  refine ⟨rfl, rfl, rfl, ?_⟩
  have hmem : stAfterS ∈ bootTrace [] 4 stBootSB := by
    have htr : bootTrace [] 4 stBootSB = [stBootSB, stAfterS, stAfterS] := rfl
    rw [htr]
    exact List.mem_cons_of_mem _ (List.mem_cons_self _ _)
  rw [hb]
  exact (hall stAfterS hmem).1 ("S") ⟨"S", 0⟩ rfl
